import Mathlib

/-!
Shallow embedding of the semantic-analysis core of the tuz compiler
(`src/include/tuz/ast.h`, `src/include/tuz/resolver.h`, `src/src/resolver.cpp`):
the Symbol/Scope data model, the Type model, the AST with its annotation
slots, and the two-phase `Resolver` pass.

Modelling conventions:
* C++ `shared_ptr<StructType>` objects are mutated in place during hoisting
  and shared between symbols and field types.  Following the arena reading,
  a struct type is represented by an index (`Ty.structRef`) into a heap
  (`List StructType`) carried in the resolver state; heap mutation models
  the in-place mutation, and index equality models pointer identity
  (exactly one canonical struct object exists per declaration).
* `throw std::runtime_error` is modelled with `Except Err`; each `Err`
  constructor corresponds to one throw site and carries the name the
  message interpolates.  An error propagates out of the whole pass
  (single fatal error, no recovery), so post-error scope-stack state is
  unobservable and is not tracked.
* `Scope::symbols` is an `unordered_map<string, vector<SymbolPtr>>` queried
  only by name; it is modelled as the flat list of declared symbols in
  declaration order — `lookup_local name` is the sublist with that name,
  which agrees with the per-name vector (appends preserve order, and a
  key exists in the map iff some symbol with that name was declared).
-/

namespace Tuz

/-- `SymbolKind` from `ast.h`. -/
inductive SymbolKind where
  | Variable
  | Function
  | Struct
  | Field
deriving Repr, DecidableEq

/-- Primitive types.  Modelled from the spec: `type.h` is not under `src/`;
the spec lists the primitive set int/float/bool/void/i8..u64/f32/f64. -/
inductive PrimTy where
  | int | float | bool | void
  | i8 | i16 | i32 | i64
  | u8 | u16 | u32 | u64
  | f32 | f64
deriving Repr, DecidableEq

/-- The `Type` variant.  Modelled from the spec (`type.h` is not under
`src/`): primitives, `Pointer{pointee}`, struct types (represented by a heap
index, see module comment), `FunctionSignature{params, return}`, and the
`UnresolvedName` placeholder (`TypeName` in the code, holding `type_name`). -/
inductive Ty where
  | prim (p : PrimTy)
  | pointer (pointee : Ty)
  | structRef (idx : Nat)
  | functionSig (params : List Ty) (ret : Ty)
  | typeName (name : String)
deriving Repr

/-- `get_int32_type`.  Modelled from the spec: integer literals and `for`
loop variables get the fixed 32-bit signed integer type. -/
def get_int32_type : Ty := .prim .i32

/-- `get_float32_type`.  Modelled from the spec: float literals get the
fixed 32-bit float type. -/
def get_float32_type : Ty := .prim .f32

/-- `get_bool_type`.  Modelled from the spec: bool literals get `bool`. -/
def get_bool_type : Ty := .prim .bool

/-- A `StructType` object from the heap's point of view: name plus ordered
`(name, type)` fields, filled during hoisting (`declare_structs`). -/
structure StructType where
  name : String
  fields : List (String × Ty)
deriving Repr

/-- `get_field_type`.  Modelled from the spec: `type.h` is not under `src/`;
the spec says the field is looked up by name in declaration order and its
declared type returned, absence being representable. -/
def StructType.get_field_type (s : StructType) (field : String) : Option Ty :=
  (s.fields.find? (fun f => f.1 == field)).map (·.2)

/-- A symbol-table entry.  `ast.h` derives `VariableSymbol`, `FunctionSymbol`
and `StructSymbol` from `Symbol`, each adding a `type`; the resolver never
creates a bare `Symbol` or a `Field` symbol, so one record with a kind tag
and a type is faithful to every symbol that actually exists. -/
structure Symbol where
  kind : SymbolKind
  name : String
  type : Ty
deriving Repr

/-- `Scope::symbols`, flattened to declaration order (see module comment). -/
structure Scope where
  symbols : List Symbol
deriving Repr

def Scope.empty : Scope := ⟨[]⟩

/-- `Scope::declare`: appends under the symbol's name; never fails, never
overwrites (the per-name vector push_back = append in declaration order). -/
def Scope.declare (s : Scope) (sym : Symbol) : Scope :=
  ⟨s.symbols ++ [sym]⟩

/-- `Scope::lookup_local`: the ordered sequence of symbols declared under
`name` in this scope only ("found" iff nonempty, see module comment). -/
def Scope.lookup_local (s : Scope) (name : String) : List Symbol :=
  s.symbols.filter (fun sym => sym.name == name)

/-- `Scope::lookup`: walk the parent chain outward, return the first scope's
nonempty sequence for `name`.  The chain is passed as an explicit list,
innermost scope first (each pushed scope's `parent` is the scope that was
current at its creation, so the chain is exactly the stack from the top down
to the global scope). -/
def lookupChain : List Scope → String → List Symbol
  | [], _ => []
  | s :: rest, name =>
    let l := s.lookup_local name
    if l.isEmpty then lookupChain rest name else l

/-- `Scope::lookup_first`: head of the matched sequence (the first symbol
declared under the name at the innermost level that has it). -/
def lookupFirstChain (chain : List Scope) (name : String) : Option Symbol :=
  (lookupChain chain name).head?

/-- The throw sites of `resolver.cpp` (and `pop_scope` in `resolver.h`),
one constructor per `throw std::runtime_error`, carrying the data the
message interpolates. -/
inductive Err where
  /-- "Internal error: struct not found after declaration: " + name -/
  | internalStructNotFound (name : String)
  /-- "Unknown identifier: " + name -/
  | unresolvedIdentifier (name : String)
  /-- "field access on unknown type" -/
  | fieldAccessUnknownType
  /-- "field access on non-struct type: " + base_type->to_string() -/
  | nonStructBase (baseType : Ty)
  /-- "unknown field '" + field + "' in struct " + struct name -/
  | unknownField (field : String) (structName : String)
  /-- "Variable already declared: " + name (Let and For statements) -/
  | duplicateLocalDeclaration (name : String)
  /-- "Failed to resolve type: " + type_name -/
  | unresolvedTypeName (name : String)
  /-- "Cannot pop global scope" -/
  | cannotPopGlobalScope
deriving Repr

/-- `BinaryOp` from `ast.h` (the resolver never inspects it). -/
inductive BinaryOp where
  | Add | Sub | Mul | Div | Mod
  | Eq | Neq | Lt | Gt | Leq | Geq
  | And | Or | BitAnd | BitOr | BitXor
deriving Repr

/-- `UnaryOp` from `ast.h` (the resolver never inspects it). -/
inductive UnaryOp where
  | Neg | Not | Deref | AddrOf
deriving Repr

/-- Expression nodes from `ast.h`.  Each node carries the base-class
write-once annotation slot `type : Option Ty` (null until filled);
`VariableExpr` additionally carries its `symbol` slot.  Source locations
and the `double` payload of `FloatLiteralExpr` are never read by the
resolver and are omitted. -/
inductive Expr where
  | intLit (value : Int) (type : Option Ty)
  | floatLit (type : Option Ty)
  | boolLit (value : Bool) (type : Option Ty)
  | strLit (value : String) (type : Option Ty)
  | var (name : String) (type : Option Ty) (symbol : Option Symbol)
  | binop (op : BinaryOp) (left right : Expr) (type : Option Ty)
  | unop (op : UnaryOp) (operand : Expr) (type : Option Ty)
  | call (callee : Expr) (args : List Expr) (type : Option Ty)
  | index (array idx : Expr) (type : Option Ty)
  | fieldAccess (object : Expr) (field : String) (type : Option Ty)
  | cast (targetType : Ty) (e : Expr) (type : Option Ty)
deriving Repr

/-- The base-class `Expr::type` annotation slot. -/
def Expr.type : Expr → Option Ty
  | .intLit _ t | .floatLit t | .boolLit _ t | .strLit _ t
  | .var _ t _ | .binop _ _ _ t | .unop _ _ t | .call _ _ t
  | .index _ _ t | .fieldAccess _ _ t | .cast _ _ t => t

/-- Statement nodes from `ast.h`.  `LetStmt` and `ForStmt` carry their
write-once `symbol` slots; `IfStmt::else_branch` and `ReturnStmt::value`
can be null (`Option`). -/
inductive Stmt where
  | exprStmt (e : Expr)
  | letStmt (name : String) (declaredType : Ty) (initializer : Expr)
      (isMutable : Bool) (symbol : Option Symbol)
  | assign (target value : Expr)
  | block (stmts : List Stmt)
  | ifStmt (condition : Expr) (thenBranch : Stmt) (elseBranch : Option Stmt)
  | whileStmt (condition : Expr) (body : Stmt)
  | forStmt (varName : String) (rangeStart rangeEnd : Expr) (body : Stmt)
      (symbol : Option Symbol)
  | ret (value : Option Expr)
deriving Repr

/-- `Param` from `ast.h`: name, declared type, write-once symbol slot. -/
structure Param where
  name : String
  type : Ty
  symbol : Option Symbol
deriving Repr

/-- `Field` from `ast.h`: field name and declared type. -/
structure Field where
  name : String
  type : Ty
deriving Repr

/-- Declarations from `ast.h`.  `FunctionDecl::body` can be null (extern). -/
inductive Decl where
  | functionDecl (name : String) (params : List Param) (returnType : Ty)
      (body : Option Stmt) (isExtern : Bool)
  | structDecl (name : String) (fields : List Field)
  | globalDecl (name : String) (type : Ty) (initializer : Option Expr)
      (isMutable : Bool)
deriving Repr

/-- `Program`: ordered top-level declarations plus the global `Scope`
member that the parser hands over and CodeGen receives. -/
structure Program where
  declarations : List Decl
  scope : Scope
deriving Repr

/-- The `Resolver`'s mutable state.

`scope_stack` holds `unique_ptr<Scope>`s; the constructor runs
`push_scope()` once, so after construction the stack is never empty and
its bottom element — here `base` — is a scope whose `parent` is
`&program.scope`.  `inner` lists the scopes pushed above `base`,
innermost first.  `pop_scope` refuses to remove the bottom element
("Cannot pop global scope"), so `base` persists for the whole pass.
`heap` is the arena of canonical `StructType` objects (see module
comment); `programScope` is `program.scope` itself. -/
structure ResolverState where
  heap : List StructType
  programScope : Scope
  base : Scope
  inner : List Scope
deriving Repr

namespace ResolverState

/-- The parent chain seen from `current_scope()`: the pushed scopes from
the innermost down to `base`, then `program.scope`. -/
def chain (st : ResolverState) : List Scope :=
  st.inner ++ [st.base, st.programScope]

/-- `current_scope()->lookup_first(name)` (walks the whole chain). -/
def lookup_first (st : ResolverState) (name : String) : Option Symbol :=
  lookupFirstChain st.chain name

/-- `current_scope()->lookup_local(name)` (current scope only). -/
def current_lookup_local (st : ResolverState) (name : String) : List Symbol :=
  (match st.inner with
   | [] => st.base
   | s :: _ => s).lookup_local name

/-- `current_scope()->declare(symbol)`. -/
def declare (st : ResolverState) (sym : Symbol) : ResolverState :=
  match st.inner with
  | [] => { st with base := st.base.declare sym }
  | s :: rest => { st with inner := s.declare sym :: rest }

/-- `Resolver::push_scope` (after construction: the new scope's parent is
the current top of the stack). -/
def push_scope (st : ResolverState) : ResolverState :=
  { st with inner := Scope.empty :: st.inner }

/-- `Resolver::pop_scope`: throws when it would remove the bottom element
pushed at construction (`scope_stack.size() <= 1`). -/
def pop_scope (st : ResolverState) : Except Err ResolverState :=
  match st.inner with
  | [] => .error .cannotPopGlobalScope
  | _ :: rest => .ok { st with inner := rest }

/-- Append one resolved field to the canonical struct object at `idx`
(the `type->fields.emplace_back` of `declare_structs`' second pass;
`idx` is always in range for resolver-built states, as the index models
a live `shared_ptr`). -/
def heap_append_field (st : ResolverState) (idx : Nat) (fname : String)
    (fty : Ty) : ResolverState :=
  match st.heap[idx]? with
  | none => st
  | some obj =>
    { st with heap := st.heap.set idx { obj with fields := obj.fields ++ [(fname, fty)] } }

end ResolverState

/-- `Resolver::Resolver(program)`: the member initializer takes the
program (with its scope, empty as the parser emits it), and the
constructor body runs `push_scope()` — at that moment the stack is empty,
so `current_scope()` is `&program.scope` and the pushed bottom scope's
parent is `program.scope`. -/
def initialState (p : Program) : ResolverState :=
  { heap := [], programScope := p.scope, base := Scope.empty, inner := [] }

/-- `Resolver::resolve_type`: an `UnresolvedName` (`TypeName`) is looked up
in the current scope chain — no symbol at all is fatal; a `Struct` symbol
yields its canonical struct type; any other symbol kind falls through and
the placeholder is returned unchanged.  Every other variant is returned
unchanged.  The resolver state is only read, never written. -/
def resolve_type (st : ResolverState) (t : Ty) : Except Err Ty :=
  match t with
  | .typeName n =>
    match st.lookup_first n with
    | none => .error (.unresolvedTypeName n)
    | some sym =>
      match sym.kind, sym.type with
      | .Struct, sty => .ok sty
      | _, _ => .ok t
  | _ => .ok t

/-- First pass of `Resolver::declare_structs`: for every struct declaration
create an empty-bodied canonical struct object (a fresh heap cell) and
declare a `Struct` symbol for it into the current scope (the bottom stack
scope during `resolve()`), before any field is looked at. -/
def declare_structs_pass1 (st : ResolverState) (decls : List Decl) : ResolverState :=
  decls.foldl (fun st d =>
    match d with
    | .structDecl name _ =>
      let idx := st.heap.length
      let st' := { st with heap := st.heap ++ [StructType.mk name []] }
      st'.declare ⟨.Struct, name, .structRef idx⟩
    | _ => st) st

/-- The inner field loop of `declare_structs`' second pass: resolve each
declared field type and append it to the canonical struct object at `idx`,
in declaration order. -/
def fill_fields (st : ResolverState) (idx : Nat) :
    List Field → Except Err ResolverState
  | [] => .ok st
  | f :: rest =>
    match resolve_type st f.type with
    | .error e => .error e
    | .ok r => fill_fields (st.heap_append_field idx f.name r) idx rest

/-- Second pass of `Resolver::declare_structs`: for every struct declaration
look its name up again (`lookup_first`); absence is the defensive internal
error; if the found symbol is a `Struct` symbol, fill the canonical struct
object's field list (a found non-`Struct` symbol is silently skipped — the
source has no `else` branch; a `Struct` symbol whose type is not a struct
object cannot be built by this resolver and is likewise skipped). -/
def declare_structs_pass2 (st : ResolverState) :
    List Decl → Except Err ResolverState
  | [] => .ok st
  | d :: rest =>
    match d with
    | .structDecl name fields =>
      match st.lookup_first name with
      | none => .error (.internalStructNotFound name)
      | some sym =>
        match sym.kind, sym.type with
        | .Struct, .structRef idx =>
          match fill_fields st idx fields with
          | .error e => .error e
          | .ok st' => declare_structs_pass2 st' rest
        | _, _ => declare_structs_pass2 st rest
    | _ => declare_structs_pass2 st rest

/-- `Resolver::declare_structs`: both passes. -/
def declare_structs (st : ResolverState) (decls : List Decl) :
    Except Err ResolverState :=
  declare_structs_pass2 (declare_structs_pass1 st decls) decls

/-- `Resolver::declare_functions`: for every function declaration build a
`FunctionSignature` from the (possibly still unresolved) parameter and
return types and declare a `Function` symbol; bodies are not visited. -/
def declare_functions (st : ResolverState) (decls : List Decl) : ResolverState :=
  decls.foldl (fun st d =>
    match d with
    | .functionDecl name params retTy _ _ =>
      st.declare ⟨.Function, name, .functionSig (params.map (·.type)) retTy⟩
    | _ => st) st

mutual

/-- The expression cases of `Resolver::visit` (via `visit_node` dispatch),
returning the annotated node and the updated state. -/
def visitExpr (st : ResolverState) : Expr → Except Err (Expr × ResolverState)
  | .intLit v _ => .ok (.intLit v (some get_int32_type), st)
  | .floatLit _ => .ok (.floatLit (some get_float32_type), st)
  | .boolLit v _ => .ok (.boolLit v (some get_bool_type), st)
  | .strLit v t => .ok (.strLit v t, st)
  | .var name ty _ =>
    match st.lookup_first name with
    | none => .error (.unresolvedIdentifier name)
    | some sym =>
      match sym.kind with
      | .Variable => .ok (.var name (some sym.type) (some sym), st)
      | .Function => .ok (.var name (some sym.type) (some sym), st)
      | _ => .ok (.var name ty (some sym), st)
  | .binop op l r ty =>
    match visitExpr st l with
    | .error e => .error e
    | .ok (l', st₁) =>
      match visitExpr st₁ r with
      | .error e => .error e
      | .ok (r', st₂) => .ok (.binop op l' r' ty, st₂)
  | .unop op e ty =>
    match visitExpr st e with
    | .error er => .error er
    | .ok (e', st₁) => .ok (.unop op e' ty, st₁)
  | .call callee args ty =>
    match visitExpr st callee with
    | .error e => .error e
    | .ok (callee', st₁) =>
      match visitExprList st₁ args with
      | .error e => .error e
      | .ok (args', st₂) => .ok (.call callee' args' ty, st₂)
  | .index arr idx ty =>
    match visitExpr st arr with
    | .error e => .error e
    | .ok (arr', st₁) =>
      match visitExpr st₁ idx with
      | .error e => .error e
      | .ok (idx', st₂) => .ok (.index arr' idx' ty, st₂)
  | .fieldAccess obj field _ty =>
    match visitExpr st obj with
    | .error e => .error e
    | .ok (obj', st₁) =>
      match obj'.type with
      | none => .error .fieldAccessUnknownType
      | some bt =>
        let baseTy := match bt with
          | .pointer p => p
          | _ => bt
        match baseTy with
        | .structRef idx =>
          match st₁.heap[idx]? with
          | none => .error (.unknownField field "")
          | some sobj =>
            match sobj.get_field_type field with
            | none => .error (.unknownField field sobj.name)
            | some fty => .ok (.fieldAccess obj' field (some fty), st₁)
        | other => .error (.nonStructBase other)
  | .cast tt e ty =>
    match resolve_type st tt with
    | .error er => .error er
    | .ok tt' =>
      match visitExpr st e with
      | .error er => .error er
      | .ok (e', st₁) => .ok (.cast tt' e' ty, st₁)

/-- `CallExpr` argument loop, left to right. -/
def visitExprList (st : ResolverState) :
    List Expr → Except Err (List Expr × ResolverState)
  | [] => .ok ([], st)
  | e :: rest =>
    match visitExpr st e with
    | .error er => .error er
    | .ok (e', st₁) =>
      match visitExprList st₁ rest with
      | .error er => .error er
      | .ok (rest', st₂) => .ok (e' :: rest', st₂)

/-- The statement cases of `Resolver::visit`. -/
def visitStmt (st : ResolverState) : Stmt → Except Err (Stmt × ResolverState)
  | .exprStmt e =>
    match visitExpr st e with
    | .error er => .error er
    | .ok (e', st₁) => .ok (.exprStmt e', st₁)
  | .letStmt name dty init isMut _ =>
    match visitExpr st init with
    | .error er => .error er
    | .ok (init', st₁) =>
      match resolve_type st₁ dty with
      | .error er => .error er
      | .ok dty' =>
        if (st₁.current_lookup_local name).isEmpty then
          let sym : Symbol := ⟨.Variable, name, dty'⟩
          .ok (.letStmt name dty' init' isMut (some sym), st₁.declare sym)
        else
          .error (.duplicateLocalDeclaration name)
  | .assign tgt val =>
    match visitExpr st tgt with
    | .error er => .error er
    | .ok (tgt', st₁) =>
      match visitExpr st₁ val with
      | .error er => .error er
      | .ok (val', st₂) => .ok (.assign tgt' val', st₂)
  | .block stmts =>
    match visitStmtList st.push_scope stmts with
    | .error er => .error er
    | .ok (stmts', st₂) =>
      match st₂.pop_scope with
      | .error er => .error er
      | .ok st₃ => .ok (.block stmts', st₃)
  | .ifStmt cond thenB elseB =>
    match visitStmt st thenB with
    | .error er => .error er
    | .ok (thenB', st₁) =>
      match visitOptStmt st₁ elseB with
      | .error er => .error er
      | .ok (elseB', st₂) => .ok (.ifStmt cond thenB' elseB', st₂)
  | .whileStmt cond body =>
    match visitStmt st body with
    | .error er => .error er
    | .ok (body', st₁) => .ok (.whileStmt cond body', st₁)
  | .forStmt v a b body _ =>
    let st₁ := st.push_scope
    if (st₁.current_lookup_local v).isEmpty then
      let sym : Symbol := ⟨.Variable, v, get_int32_type⟩
      match visitStmt (st₁.declare sym) body with
      | .error er => .error er
      | .ok (body', st₃) =>
        match st₃.pop_scope with
        | .error er => .error er
        | .ok st₄ => .ok (.forStmt v a b body' (some sym), st₄)
    else
      .error (.duplicateLocalDeclaration v)
  | .ret v => .ok (.ret v, st)

/-- `BlockStmt` statement loop, in order. -/
def visitStmtList (st : ResolverState) :
    List Stmt → Except Err (List Stmt × ResolverState)
  | [] => .ok ([], st)
  | s :: rest =>
    match visitStmt st s with
    | .error er => .error er
    | .ok (s', st₁) =>
      match visitStmtList st₁ rest with
      | .error er => .error er
      | .ok (rest', st₂) => .ok (s' :: rest', st₂)

/-- `visit_node(StmtPtr)`: a null node is skipped. -/
def visitOptStmt (st : ResolverState) :
    Option Stmt → Except Err (Option Stmt × ResolverState)
  | none => .ok (none, st)
  | some s =>
    match visitStmt st s with
    | .error er => .error er
    | .ok (s', st₁) => .ok (some s', st₁)

end

/-- The parameter loop of `Resolver::visit(FunctionDecl&)`: resolve each
parameter's declared type, then declare it as a `Variable` symbol in the
function's fresh scope, caching it in the parameter's slot. -/
def visitParams (st : ResolverState) :
    List Param → Except Err (List Param × ResolverState)
  | [] => .ok ([], st)
  | p :: rest =>
    match resolve_type st p.type with
    | .error er => .error er
    | .ok pty =>
      let sym : Symbol := ⟨.Variable, p.name, pty⟩
      match visitParams (st.declare sym) rest with
      | .error er => .error er
      | .ok (rest', st₂) =>
        .ok ({ p with type := pty, symbol := some sym } :: rest', st₂)

/-- The field loop of `Resolver::visit(StructDecl&)`: write each field's
resolved type back into the declaration (the state is only read). -/
def resolveFieldTypes (st : ResolverState) :
    List Field → Except Err (List Field)
  | [] => .ok []
  | f :: rest =>
    match resolve_type st f.type with
    | .error er => .error er
    | .ok r =>
      match resolveFieldTypes st rest with
      | .error er => .error er
      | .ok rest' => .ok ({ f with type := r } :: rest')

/-- The declaration cases of `Resolver::visit` (phase 2). -/
def visitDecl (st : ResolverState) : Decl → Except Err (Decl × ResolverState)
  | .functionDecl name params retTy body isExt =>
    match visitParams st.push_scope params with
    | .error er => .error er
    | .ok (params', st₂) =>
      match resolve_type st₂ retTy with
      | .error er => .error er
      | .ok retTy' =>
        match visitOptStmt st₂ body with
        | .error er => .error er
        | .ok (body', st₃) =>
          match st₃.pop_scope with
          | .error er => .error er
          | .ok st₄ => .ok (.functionDecl name params' retTy' body' isExt, st₄)
  | .structDecl name fields =>
    match resolveFieldTypes st fields with
    | .error er => .error er
    | .ok fields' => .ok (.structDecl name fields', st)
  | .globalDecl name ty init isMut =>
    match resolve_type st ty with
    | .error er => .error er
    | .ok ty' => .ok (.globalDecl name ty' init isMut, st)

/-- The top-level loop of `Resolver::resolve` over `program.declarations`. -/
def visitDeclList (st : ResolverState) :
    List Decl → Except Err (List Decl × ResolverState)
  | [] => .ok ([], st)
  | d :: rest =>
    match visitDecl st d with
    | .error er => .error er
    | .ok (d', st₁) =>
      match visitDeclList st₁ rest with
      | .error er => .error er
      | .ok (rest', st₂) => .ok (d' :: rest', st₂)

/-- `Resolver::resolve` on a freshly constructed resolver: hoist struct
signatures, hoist function signatures, then visit every top-level
declaration; the result is the annotated program (with its `scope` member
as CodeGen receives it) and the final resolver state. -/
def resolveProgram (p : Program) : Except Err (Program × ResolverState) :=
  match declare_structs (initialState p) p.declarations with
  | .error er => .error er
  | .ok st₁ =>
    match visitDeclList (declare_functions st₁ p.declarations) p.declarations with
    | .error er => .error er
    | .ok (decls', st₃) =>
      .ok ({ declarations := decls', scope := st₃.programScope }, st₃)

/-- `Resolver::visit(ForStmt&)` with the duplicate-declaration check
removed: push the loop scope, declare the loop variable as a 32-bit
`Variable` symbol, visit only the body, pop.  Comparing `visitStmt` on a
`for` statement against this function shows the check is dead code. -/
def visitForWithoutCheck (st : ResolverState) (v : String) (a b : Expr)
    (body : Stmt) : Except Err (Stmt × ResolverState) :=
  let sym : Symbol := ⟨.Variable, v, get_int32_type⟩
  match visitStmt (st.push_scope.declare sym) body with
  | .error er => .error er
  | .ok (body', st₃) =>
    match st₃.pop_scope with
    | .error er => .error er
    | .ok st₄ => .ok (.forStmt v a b body' (some sym), st₄)

/-- The pointer unwrapping of `visit(FieldAccessExpr&)` as a standalone
function: exactly one level of pointer indirection is removed (the two
source lines `if (base_type->kind == Pointer) base_type = pointee`). -/
def unwrapOnePointer : Ty → Ty
  | .pointer p => p
  | t => t

/-- The names of the struct declarations, in declaration order (heap index
`i` holds the canonical object of the `i`-th struct declaration). -/
def structNames (decls : List Decl) : List String :=
  decls.filterMap (fun d =>
    match d with
    | .structDecl n _ => some n
    | _ => none)

/-- The struct declarations themselves, in declaration order. -/
def structsOf (decls : List Decl) : List (String × List Field) :=
  decls.filterMap (fun d =>
    match d with
    | .structDecl n fs => some (n, fs)
    | _ => none)

/-- What one application of `resolve_type` does to a declared field type
during hoisting of `decls` (assuming distinct struct names): a bare struct
name becomes the referenced struct's canonical type; everything else —
pointers included, whatever their pointee — is returned unchanged. -/
def hoistFieldResolve (decls : List Decl) (t : Ty) : Ty :=
  match t with
  | .typeName n =>
    if n ∈ structNames decls then .structRef ((structNames decls).indexOf n)
    else t
  | _ => t

end Tuz

namespace Tuz

/-! ### Helper lemmas -/

/-- Expression visits never touch the resolver state: no expression case
pushes or pops a scope, declares a symbol, or writes the heap. -/
theorem visitExpr_state (st : ResolverState) (e : Expr) :
    ∀ r, visitExpr st e = .ok r → r.2 = st := by
  induction st, e using visitExpr.induct
  case motive_2 st es => exact ∀ r, visitExprList st es = Except.ok r → r.2 = st
  all_goals intro r hr
  all_goals (try simp_all [visitExpr, visitExprList])
  all_goals (try (repeat split at hr))
  all_goals (try (repeat split at hr))
  all_goals (try subst hr)
  all_goals (try (injection hr with hr2; subst hr2))
  all_goals (first | rfl | simp_all)

/-- Argument-list visits never touch the resolver state either. -/
theorem visitExprList_state (st : ResolverState) (es : List Expr) :
    ∀ r, visitExprList st es = .ok r → r.2 = st := by
  induction es generalizing st with
  | nil => intro r hr; simp only [visitExprList, Except.ok.injEq] at hr; subst hr; rfl
  | cons e rest ih =>
    intro r hr
    cases h1 : visitExpr st e with
    | error er => simp [visitExprList, h1] at hr
    | ok p =>
      cases h2 : visitExprList p.2 rest with
      | error er => simp [visitExprList, h1, h2] at hr
      | ok q =>
        have hp := visitExpr_state st e p h1
        have hq := ih p.2 q h2
        simp [visitExprList, h1, h2] at hr
        subst hr
        simp [hq, hp]

end Tuz

namespace Tuz

/-- The duplicate-declaration check in `visit(ForStmt&)` is performed on the
scope pushed immediately before it, which is empty, so the check always
passes: visiting a `for` statement equals the check-free variant. -/
theorem visitStmt_forStmt_eq (st : ResolverState) (v : String) (a b : Expr)
    (body : Stmt) (slot : Option Symbol) :
    visitStmt st (.forStmt v a b body slot) = visitForWithoutCheck st v a b body := by
  simp [visitStmt, visitForWithoutCheck, ResolverState.push_scope,
    ResolverState.current_lookup_local, Scope.lookup_local, Scope.empty]

/-! ### Concrete fixtures used by witnesses and counterexamples -/

/-- A resolver state as constructed on an empty program: empty heap, empty
global scope, one empty pushed scope. -/
def stateEmpty : ResolverState := initialState ⟨[], Scope.empty⟩

/-- `stateEmpty` after declaring a variable `x` in the current scope. -/
def stateWithX : ResolverState :=
  stateEmpty.declare ⟨.Variable, "x", get_int32_type⟩

/-! ### Claim theorems -/

/-- C9: the duplicate-declaration branch of `Resolver::visit(ForStmt&)` is
unreachable: the same-name check runs in the scope just opened for the
loop, which is necessarily empty, so resolving a `for` statement behaves
exactly like the check-free variant for every state and every statement,
regardless of same-named bindings in enclosing scopes — the `for`
statement's own check never raises DuplicateLocalDeclaration. -/
theorem claim_C9_for_duplicate_check_unreachable (st : ResolverState)
    (v : String) (a b : Expr) (body : Stmt) (slot : Option Symbol) :
    visitStmt st (.forStmt v a b body slot) = visitForWithoutCheck st v a b body :=
  visitStmt_forStmt_eq st v a b body slot

/-- C7: `resolve_type` is the identity on every type that is not an
`UnresolvedName` placeholder — primitives, pointers, function signatures
and already-resolved struct types are returned unchanged (the very same
value, so nested pointee/parameter/return types are not re-resolved), and
the resolver state is neither read for them nor written. -/
theorem claim_C7_resolve_type_identity (st : ResolverState) (t : Ty)
    (h : ∀ n, t ≠ Ty.typeName n) :
    resolve_type st t = .ok t := by
  cases t with
  | typeName n => exact absurd rfl (h n)
  | _ => rfl

/-- Witness for C7 at the already-canonical struct type `structRef 0`. -/
theorem claim_C7_witness : (∀ n, Ty.structRef 0 ≠ Ty.typeName n) ∧
    resolve_type stateEmpty (Ty.structRef 0) = .ok (Ty.structRef 0) :=
  ⟨(fun _ h => nomatch h), claim_C7_resolve_type_identity _ _ (fun _ h => nomatch h)⟩

/-- C10: when `resolve_type` meets an `UnresolvedName` whose lookup finds a
symbol that is not a `Struct` symbol, it raises no error and returns the
placeholder unchanged; the fatal UnresolvedTypeName path is taken exactly
when lookup finds no symbol at all. -/
theorem claim_C10_resolve_type_non_struct_symbol (st : ResolverState) (n : String) :
    (∀ sym, st.lookup_first n = some sym → sym.kind ≠ .Struct →
      resolve_type st (.typeName n) = .ok (.typeName n)) ∧
    (st.lookup_first n = none →
      resolve_type st (.typeName n) = .error (.unresolvedTypeName n)) := by
  constructor
  · intro sym hlook hkind
    simp only [resolve_type, hlook]
  · intro hlook
    simp [resolve_type, hlook]

/-- Witness for C10: a variable named `T` shadows the type name `T`;
resolving the type name `T` returns the placeholder unchanged. -/
theorem claim_C10_witness :
    (stateEmpty.declare ⟨.Variable, "T", get_int32_type⟩).lookup_first "T"
        = some ⟨.Variable, "T", get_int32_type⟩ ∧
    resolve_type (stateEmpty.declare ⟨.Variable, "T", get_int32_type⟩)
        (.typeName "T") = .ok (.typeName "T") :=
  ⟨rfl, (claim_C10_resolve_type_non_struct_symbol _ "T").1
    ⟨.Variable, "T", get_int32_type⟩ rfl (by decide)⟩

/-- C5: resolving a variable reference whose name no enclosing scope
declares aborts with UnresolvedIdentifier carrying exactly that name; when
lookup finds a `Variable` or `Function` symbol, the expression's type slot
receives the symbol's type and its symbol slot caches the symbol (and the
state is unchanged). -/
theorem claim_C5_variable_reference (st : ResolverState) (name : String)
    (t : Option Ty) (s : Option Symbol) :
    (st.lookup_first name = none →
      visitExpr st (.var name t s) = .error (.unresolvedIdentifier name)) ∧
    (∀ sym, st.lookup_first name = some sym →
      sym.kind = .Variable ∨ sym.kind = .Function →
      visitExpr st (.var name t s) = .ok (.var name (some sym.type) (some sym), st)) := by
  constructor
  · intro h; simp [visitExpr, h]
  · intro sym h hk
    rcases hk with hk | hk <;> simp [visitExpr, h, hk]

/-- Witness for C5: `y` is undeclared in the empty state; `x` is a declared
variable and its reference is annotated with its type and symbol. -/
theorem claim_C5_witness :
    visitExpr stateEmpty (.var "y" none none)
      = .error (.unresolvedIdentifier "y") ∧
    visitExpr stateWithX (.var "x" none none)
      = .ok (.var "x" (some get_int32_type)
              (some ⟨.Variable, "x", get_int32_type⟩), stateWithX) :=
  ⟨(claim_C5_variable_reference stateEmpty "y" none none).1 rfl,
   (claim_C5_variable_reference stateWithX "x" none none).2
     ⟨.Variable, "x", get_int32_type⟩ rfl (Or.inl rfl)⟩

end Tuz

namespace Tuz

/-- C8: during resolution of `if` and `while` statements only the branch
bodies / loop body are visited: the condition expression comes through
syntactically untouched (its annotation slots unwritten); a `for`
statement's range-start and range-end expressions likewise come through
untouched; and a `return` statement is a complete no-op — its optional
value expression is returned unvisited and the state unchanged. -/
theorem claim_C8_conditions_and_ranges_unvisited (st : ResolverState) :
    (∀ c th el r, visitStmt st (.ifStmt c th el) = .ok r →
       ∃ th' el' st', r = (.ifStmt c th' el', st')) ∧
    (∀ c body r, visitStmt st (.whileStmt c body) = .ok r →
       ∃ body' st', r = (.whileStmt c body', st')) ∧
    (∀ v a b body slot r, visitStmt st (.forStmt v a b body slot) = .ok r →
       ∃ body' sym st', r = (.forStmt v a b body' sym, st')) ∧
    (∀ v, visitStmt st (.ret v) = .ok (.ret v, st)) := by
  refine ⟨?_, ?_, ?_, ?_⟩
  · intro c th el r h
    cases h1 : visitStmt st th with
    | error er => simp [visitStmt, h1] at h
    | ok p =>
      obtain ⟨th', st₁⟩ := p
      cases h2 : visitOptStmt st₁ el with
      | error er => simp [visitStmt, h1, h2] at h
      | ok q =>
        obtain ⟨el', st₂⟩ := q
        simp [visitStmt, h1, h2] at h
        exact ⟨th', el', st₂, h.symm⟩
  · intro c body r h
    cases h1 : visitStmt st body with
    | error er => simp [visitStmt, h1] at h
    | ok p =>
      obtain ⟨body', st₁⟩ := p
      simp [visitStmt, h1] at h
      exact ⟨body', st₁, h.symm⟩
  · intro v a b body slot r h
    rw [visitStmt_forStmt_eq] at h
    unfold visitForWithoutCheck at h
    cases h1 : visitStmt (st.push_scope.declare ⟨.Variable, v, get_int32_type⟩) body with
    | error er => simp [h1] at h
    | ok p =>
      obtain ⟨body', st₃⟩ := p
      cases h2 : st₃.pop_scope with
      | error er => simp [h1, h2] at h
      | ok st₄ =>
        simp [h1, h2] at h
        exact ⟨body', some ⟨.Variable, v, get_int32_type⟩, st₄, h.symm⟩
  · intro v
    simp [visitStmt]

/-- Witness for C8 with an undeclared variable `u` as condition / range
expression: `if`, `while` and `for` still resolve (the expression is never
visited) and come back with it untouched; `return` of an unvisited value
expression is the identity. -/
theorem claim_C8_witness :
    (∃ th' el' st',
      ((Stmt.ifStmt (.var "u" none none) (.ret none) none, stateEmpty) :
          Stmt × ResolverState)
        = (.ifStmt (.var "u" none none) th' el', st')) ∧
    (∃ body' st',
      ((Stmt.whileStmt (.var "u" none none) (.ret none), stateEmpty) :
          Stmt × ResolverState)
        = (.whileStmt (.var "u" none none) body', st')) ∧
    (∃ body' sym st',
      ((Stmt.forStmt "i" (.var "u" none none) (.var "u" none none) (.ret none)
          (some ⟨.Variable, "i", get_int32_type⟩), stateEmpty) :
          Stmt × ResolverState)
        = (.forStmt "i" (.var "u" none none) (.var "u" none none) body' sym, st')) ∧
    visitStmt stateEmpty (.ret (some (.var "u" none none)))
      = .ok (.ret (some (.var "u" none none)), stateEmpty) :=
  ⟨(claim_C8_conditions_and_ranges_unvisited stateEmpty).1
      (.var "u" none none) (.ret none) none _ rfl,
   (claim_C8_conditions_and_ranges_unvisited stateEmpty).2.1
      (.var "u" none none) (.ret none) _ rfl,
   (claim_C8_conditions_and_ranges_unvisited stateEmpty).2.2.1
      "i" (.var "u" none none) (.var "u" none none) (.ret none) none _ rfl,
   (claim_C8_conditions_and_ranges_unvisited stateEmpty).2.2.2
      (some (.var "u" none none))⟩

/-- C4: a `let` whose name already has a declaration at the current scope
level fails with DuplicateLocalDeclaration (after the initializer and the
declared type have been resolved, in that order); a `let` of the same name
in a freshly pushed (strictly nested) scope succeeds, and lookups then see
the new inner `Variable` symbol, shadowing the outer one; popping the
inner scope restores the original state, where lookup yields the outer
binding again. -/
theorem claim_C4_let_duplicate_and_shadowing (st : ResolverState)
    (name : String) (dty : Ty) (init : Expr) (isMut : Bool) (slot : Option Symbol) :
    (∀ init' st₁ dty', visitExpr st init = .ok (init', st₁) →
      resolve_type st₁ dty = .ok dty' →
      st₁.current_lookup_local name ≠ [] →
      visitStmt st (.letStmt name dty init isMut slot)
        = .error (.duplicateLocalDeclaration name)) ∧
    (∀ sOuter init' st₁ dty', st.lookup_first name = some sOuter →
      visitExpr st.push_scope init = .ok (init', st₁) →
      resolve_type st₁ dty = .ok dty' →
      visitStmt st.push_scope (.letStmt name dty init isMut slot)
          = .ok (.letStmt name dty' init' isMut (some ⟨.Variable, name, dty'⟩),
                 st₁.declare ⟨.Variable, name, dty'⟩) ∧
        (st₁.declare ⟨.Variable, name, dty'⟩).lookup_first name
          = some ⟨.Variable, name, dty'⟩ ∧
        (st₁.declare ⟨.Variable, name, dty'⟩).pop_scope = .ok st ∧
        st.lookup_first name = some sOuter) := by
  constructor
  · intro init' st₁ dty' hinit hty hdup
    have hne : (st₁.current_lookup_local name).isEmpty = false := by
      cases hcl : st₁.current_lookup_local name with
      | nil => exact absurd hcl hdup
      | cons a l => rfl
    simp [visitStmt, hinit, hty, hne]
  · intro sOuter init' st₁ dty' houter hinit hty
    have hst : st₁ = st.push_scope :=
      visitExpr_state st.push_scope init (init', st₁) hinit
    subst hst
    refine ⟨?_, ?_, ?_, houter⟩
    · simp only [visitStmt, hinit, hty]
      simp [ResolverState.push_scope, ResolverState.current_lookup_local,
        Scope.lookup_local, Scope.empty]
    · simp [ResolverState.push_scope, ResolverState.declare, ResolverState.lookup_first,
        lookupFirstChain, lookupChain, ResolverState.chain, Scope.declare,
        Scope.lookup_local, Scope.empty]
    · simp [ResolverState.push_scope, ResolverState.declare, ResolverState.pop_scope,
        Scope.declare, Scope.empty]

/-- Witness for C4: with `x` declared at the current level, a second
`let x` fails with DuplicateLocalDeclaration; after pushing a block scope,
`let x` succeeds, lookup sees the new symbol, and popping restores the
state where lookup sees the outer `x` again. -/
theorem claim_C4_witness :
    visitStmt stateWithX (.letStmt "x" (.prim .i32) (.intLit 1 none) true none)
      = .error (.duplicateLocalDeclaration "x") ∧
    (visitStmt stateWithX.push_scope
        (.letStmt "x" (.prim .i32) (.intLit 1 none) true none)
      = .ok (.letStmt "x" (.prim .i32) (.intLit 1 (some get_int32_type)) true
               (some ⟨.Variable, "x", .prim .i32⟩),
             stateWithX.push_scope.declare ⟨.Variable, "x", .prim .i32⟩) ∧
     (stateWithX.push_scope.declare ⟨.Variable, "x", .prim .i32⟩).lookup_first "x"
      = some ⟨.Variable, "x", .prim .i32⟩ ∧
     (stateWithX.push_scope.declare ⟨.Variable, "x", .prim .i32⟩).pop_scope
      = .ok stateWithX ∧
     stateWithX.lookup_first "x" = some ⟨.Variable, "x", get_int32_type⟩) :=
  ⟨(claim_C4_let_duplicate_and_shadowing stateWithX "x" (.prim .i32)
      (.intLit 1 none) true none).1 _ _ _ rfl rfl (fun h => List.noConfusion h),
   (claim_C4_let_duplicate_and_shadowing stateWithX "x" (.prim .i32)
      (.intLit 1 none) true none).2 ⟨.Variable, "x", get_int32_type⟩ _ _ _
      rfl rfl rfl⟩

end Tuz

namespace Tuz

/-- C6: resolving a field access — a missing resolved type on the object is
fatal (`fieldAccessUnknownType`); exactly one level of pointer indirection
is unwrapped, so whenever the unwrapped type is a struct type the behavior
is uniform for direct and one-pointer access: an unknown field name is
fatal naming the field, and otherwise the field's declared type becomes
the expression's type; a non-struct unwrapped type is fatal
(`nonStructBase`), in particular pointer-to-pointer-to-struct, whose
single unwrap still leaves a pointer. -/
theorem claim_C6_field_access (st : ResolverState) (obj : Expr) (field : String)
    (ty : Option Ty) (obj' : Expr) (st' : ResolverState)
    (hobj : visitExpr st obj = .ok (obj', st')) :
    (obj'.type = none →
      visitExpr st (.fieldAccess obj field ty) = .error .fieldAccessUnknownType) ∧
    (∀ bt idx, obj'.type = some bt → unwrapOnePointer bt = .structRef idx →
      ∀ sobj, st'.heap[idx]? = some sobj →
        (sobj.get_field_type field = none →
          visitExpr st (.fieldAccess obj field ty)
            = .error (.unknownField field sobj.name)) ∧
        (∀ fty, sobj.get_field_type field = some fty →
          visitExpr st (.fieldAccess obj field ty)
            = .ok (.fieldAccess obj' field (some fty), st'))) ∧
    (∀ bt, obj'.type = some bt → (∀ idx, unwrapOnePointer bt ≠ .structRef idx) →
      visitExpr st (.fieldAccess obj field ty)
        = .error (.nonStructBase (unwrapOnePointer bt))) ∧
    (∀ q, obj'.type = some (.pointer (.pointer q)) →
      visitExpr st (.fieldAccess obj field ty) = .error (.nonStructBase (.pointer q))) := by
  refine ⟨?_, ?_, ?_, ?_⟩
  · intro h
    simp [visitExpr, hobj, h]
  · intro bt idx h hu sobj hsobj
    cases bt with
    | pointer p =>
      simp only [unwrapOnePointer] at hu
      subst hu
      exact ⟨fun hf => by simp [visitExpr, hobj, h, hsobj, hf],
             fun fty hf => by simp [visitExpr, hobj, h, hsobj, hf]⟩
    | structRef j =>
      simp only [unwrapOnePointer, Ty.structRef.injEq] at hu
      subst hu
      exact ⟨fun hf => by simp [visitExpr, hobj, h, hsobj, hf],
             fun fty hf => by simp [visitExpr, hobj, h, hsobj, hf]⟩
    | prim p => simp [unwrapOnePointer] at hu
    | functionSig ps r => simp [unwrapOnePointer] at hu
    | typeName n => simp [unwrapOnePointer] at hu
  · intro bt h hns
    cases bt with
    | pointer p =>
      simp only [unwrapOnePointer] at hns ⊢
      cases p with
      | structRef j => exact absurd rfl (hns j)
      | _ => simp [visitExpr, hobj, h]
    | structRef j => exact (hns j (by simp [unwrapOnePointer])).elim
    | prim p => simp [visitExpr, hobj, h, unwrapOnePointer]
    | functionSig ps r => simp [visitExpr, hobj, h, unwrapOnePointer]
    | typeName n => simp [visitExpr, hobj, h, unwrapOnePointer]
  · intro q h
    simp [visitExpr, hobj, h]

/-- A state holding one canonical struct `P { x: i32 }`, a variable `p` of
type pointer-to-`P`, and a variable `q` of type pointer-to-pointer-to-`P`. -/
def stateWithP : ResolverState :=
  { heap := [⟨"P", [("x", get_int32_type)]⟩],
    programScope := Scope.empty,
    base := (Scope.empty.declare ⟨.Variable, "p", .pointer (.structRef 0)⟩).declare
              ⟨.Variable, "q", .pointer (.pointer (.structRef 0))⟩,
    inner := [] }

/-- Witness for C6: an untyped object is fatal; `p.x` through the pointer
succeeds with the field's type; an unknown field names itself and the
struct; `q.x` through two pointers is a non-struct base after one unwrap. -/
theorem claim_C6_witness :
    visitExpr stateWithP (.fieldAccess (.strLit "s" none) "x" none)
      = .error .fieldAccessUnknownType ∧
    visitExpr stateWithP (.fieldAccess (.var "p" none none) "x" none)
      = .ok (.fieldAccess
              (.var "p" (some (.pointer (.structRef 0)))
                (some ⟨.Variable, "p", .pointer (.structRef 0)⟩))
              "x" (some get_int32_type),
             stateWithP) ∧
    visitExpr stateWithP (.fieldAccess (.var "p" none none) "zz" none)
      = .error (.unknownField "zz" "P") ∧
    visitExpr stateWithP (.fieldAccess (.var "q" none none) "x" none)
      = .error (.nonStructBase (.pointer (.structRef 0))) :=
  ⟨(claim_C6_field_access stateWithP (.strLit "s" none) "x" none
      (.strLit "s" none) stateWithP rfl).1 rfl,
   ((claim_C6_field_access stateWithP (.var "p" none none) "x" none
      (.var "p" (some (.pointer (.structRef 0)))
        (some ⟨.Variable, "p", .pointer (.structRef 0)⟩)) stateWithP rfl).2.1
      (.pointer (.structRef 0)) 0 rfl rfl ⟨"P", [("x", get_int32_type)]⟩ rfl).2
      get_int32_type rfl,
   ((claim_C6_field_access stateWithP (.var "p" none none) "zz" none
      (.var "p" (some (.pointer (.structRef 0)))
        (some ⟨.Variable, "p", .pointer (.structRef 0)⟩)) stateWithP rfl).2.1
      (.pointer (.structRef 0)) 0 rfl rfl ⟨"P", [("x", get_int32_type)]⟩ rfl).1 rfl,
   (claim_C6_field_access stateWithP (.var "q" none none) "x" none
      (.var "q" (some (.pointer (.pointer (.structRef 0))))
        (some ⟨.Variable, "q", .pointer (.pointer (.structRef 0))⟩)) stateWithP
      rfl).2.2.2 (.structRef 0) rfl⟩

end Tuz

namespace Tuz

/-- Restatement of `visitExpr_state` with the result pair split, convenient
for rewriting. -/
theorem visitExpr_state2 (st : ResolverState) (e e' : Expr) (st' : ResolverState)
    (h : visitExpr st e = .ok (e', st')) : st' = st :=
  visitExpr_state st e (e', st') h

/-- The only error `resolve_type` can raise is UnresolvedTypeName. -/
theorem resolve_type_error (st : ResolverState) (t : Ty) (er : Err)
    (h : resolve_type st t = .error er) : ∃ n, er = .unresolvedTypeName n := by
  cases t with
  | typeName n =>
    simp only [resolve_type] at h
    cases hl : st.lookup_first n with
    | none => simp [hl] at h; exact ⟨n, h.symm⟩
    | some sym =>
      obtain ⟨k, nm, ty⟩ := sym
      simp only [hl] at h
      cases k <;> simp_all
  | _ => simp [resolve_type] at h

/-- If a name is findable in the current scope chain, no expression visit
can fail with UnresolvedIdentifier for that name: expression visits never
change the chain, and the variable case only raises it when lookup fails. -/
theorem visitExpr_no_unres (gname : String) :
    ∀ st e, st.lookup_first gname ≠ none →
      ∀ er, visitExpr st e = .error er → er ≠ .unresolvedIdentifier gname := by
  intro st e
  induction st, e using visitExpr.induct
  case motive_2 st es =>
    exact st.lookup_first gname ≠ none →
      ∀ er, visitExprList st es = .error er → er ≠ .unresolvedIdentifier gname
  all_goals intro hfound er hr
  all_goals (try simp_all [visitExpr, visitExprList])
  all_goals (try (repeat split at hr))
  all_goals (try simp_all)
  all_goals (try (repeat split at hr))
  all_goals
    (first
      | (exact ‹¬ ResolverState.lookup_first _ gname = none → ¬ er = Err.unresolvedIdentifier gname›
          ((visitExpr_state2 _ _ _ _ ‹visitExpr _ _ = Except.ok _›).symm ▸ hfound))
      | (exact ‹¬ ResolverState.lookup_first _ gname = none → ¬ er = Err.unresolvedIdentifier gname›
          hfound)
      | (subst hr; intro heq; injection heq with h2; subst h2; simp_all)
      | (subst hr; simp)
      | (simp at hr; done)
      | (injection hr with hr2; subst hr2; simp)
      | (obtain ⟨n2, hn⟩ := resolve_type_error _ _ _ ‹resolve_type _ _ = Except.error _›
         subst hn
         simp_all))

end Tuz

namespace Tuz

/-- A scope containing a symbol with the right name has a nonempty
`lookup_local` result for it. -/
theorem lookup_local_ne_nil {s : Scope} {sym : Symbol} {n : String}
    (h : sym ∈ s.symbols) (hn : sym.name = n) : s.lookup_local n ≠ [] := by
  have hm : sym ∈ s.lookup_local n := List.mem_filter.2 ⟨h, by simp [hn]⟩
  exact List.ne_nil_of_mem hm

/-- If any scope of the chain has an entry for the name, the chain lookup
finds a symbol. -/
theorem lookupFirstChain_found (chain : List Scope) (name : String) :
    (∃ s ∈ chain, s.lookup_local name ≠ []) →
    ∃ sym, lookupFirstChain chain name = some sym := by
  induction chain with
  | nil => rintro ⟨s, hs, _⟩; cases hs
  | cons c rest ih =>
    rintro ⟨s, hs, hne⟩
    by_cases hc : (c.lookup_local name).isEmpty
    · have hrest : ∃ s ∈ rest, s.lookup_local name ≠ [] := by
        rcases List.mem_cons.1 hs with rfl | hs2
        · exact absurd (List.isEmpty_iff.1 hc) hne
        · exact ⟨s, hs2, hne⟩
      obtain ⟨sym, hsym⟩ := ih hrest
      exact ⟨sym, by simpa [lookupFirstChain, lookupChain, hc] using hsym⟩
    · have hne2 : c.lookup_local name ≠ [] := by
        simpa [List.isEmpty_iff] using hc
      obtain ⟨a, l, hl⟩ := List.exists_cons_of_ne_nil hne2
      exact ⟨a, by simp [lookupFirstChain, lookupChain, hc, hl]⟩

/-- `declare_functions` with an empty pushed-scope stack keeps it empty,
keeps `program.scope` untouched, and only appends to the bottom scope. -/
theorem declare_functions_frame (decls : List Decl) :
    ∀ st : ResolverState, st.inner = [] →
      (declare_functions st decls).inner = [] ∧
      (declare_functions st decls).programScope = st.programScope ∧
      ∃ l, (declare_functions st decls).base.symbols = st.base.symbols ++ l := by
  induction decls with
  | nil => intro st h; exact ⟨h, rfl, [], by simp [declare_functions]⟩
  | cons d rest ih =>
    intro st h
    simp only [declare_functions, List.foldl_cons] at ih ⊢
    cases d with
    | functionDecl n ps rt b ex =>
      have h2 : (st.declare ⟨.Function, n, .functionSig (ps.map (·.type)) rt⟩).inner = [] := by
        simp [ResolverState.declare, h]
      obtain ⟨hi, hp, l, hb⟩ := ih _ h2
      refine ⟨hi, by simpa [ResolverState.declare, h] using hp, ?_⟩
      refine ⟨⟨.Function, n, .functionSig (ps.map (·.type)) rt⟩ :: l, ?_⟩
      rw [hb]
      simp [ResolverState.declare, h, Scope.declare]
    | structDecl n fs => exact ih st h
    | globalDecl n t i m => exact ih st h

/-- After `declare_functions`, the bottom scope holds a `Function` symbol
for every function declaration. -/
theorem declare_functions_mem (decls : List Decl) :
    ∀ st : ResolverState, st.inner = [] →
      ∀ n ps rt b ex, Decl.functionDecl n ps rt b ex ∈ decls →
        ∃ sym ∈ (declare_functions st decls).base.symbols,
          sym.kind = .Function ∧ sym.name = n := by
  induction decls with
  | nil => intro st h n ps rt b ex hg; cases hg
  | cons d rest ih =>
    intro st h n ps rt b ex hg
    simp only [declare_functions, List.foldl_cons] at ih ⊢
    rcases List.mem_cons.1 hg with heq | hmem
    · subst heq
      have h2 : (st.declare ⟨.Function, n, .functionSig (ps.map (·.type)) rt⟩).inner = [] := by
        simp [ResolverState.declare, h]
      obtain ⟨hi, hp, l, hb⟩ := declare_functions_frame rest _ h2
      simp only [declare_functions] at hb
      refine ⟨⟨.Function, n, .functionSig (ps.map (·.type)) rt⟩, ?_, rfl, rfl⟩
      rw [hb]
      simp [ResolverState.declare, h, Scope.declare]
    · cases d with
      | functionDecl n2 ps2 rt2 b2 ex2 =>
        have h2 : (st.declare ⟨.Function, n2, .functionSig (ps2.map (·.type)) rt2⟩).inner = [] := by
          simp [ResolverState.declare, h]
        exact ih _ h2 n ps rt b ex hmem
      | structDecl n2 fs2 => exact ih st h n ps rt b ex hmem
      | globalDecl n2 t2 i2 m2 => exact ih st h n ps rt b ex hmem

end Tuz

namespace Tuz

/-- The first hoisting pass keeps the pushed-scope stack empty, keeps
`program.scope` untouched, and only appends to the bottom scope. -/
theorem declare_structs_pass1_frame (decls : List Decl) :
    ∀ st : ResolverState, st.inner = [] →
      (declare_structs_pass1 st decls).inner = [] ∧
      (declare_structs_pass1 st decls).programScope = st.programScope ∧
      ∃ l, (declare_structs_pass1 st decls).base.symbols = st.base.symbols ++ l := by
  induction decls with
  | nil => intro st h; exact ⟨h, rfl, [], by simp [declare_structs_pass1]⟩
  | cons d rest ih =>
    intro st h
    simp only [declare_structs_pass1, List.foldl_cons] at ih ⊢
    cases d with
    | structDecl n fs =>
      have h2 : (({ st with heap := st.heap ++ [StructType.mk n []] } :
          ResolverState).declare ⟨.Struct, n, .structRef st.heap.length⟩).inner = [] := by
        simp [ResolverState.declare, h]
      obtain ⟨hi, hp, l, hb⟩ := ih _ h2
      refine ⟨hi, by simpa [ResolverState.declare, h] using hp, ?_⟩
      refine ⟨⟨.Struct, n, .structRef st.heap.length⟩ :: l, ?_⟩
      rw [hb]
      simp [ResolverState.declare, h, Scope.declare]
    | functionDecl n ps rt b ex => exact ih st h
    | globalDecl n t i m => exact ih st h

/-- After the first hoisting pass, the bottom scope holds a `Struct`
symbol for every struct declaration. -/
theorem declare_structs_pass1_mem (decls : List Decl) :
    ∀ st : ResolverState, st.inner = [] →
      ∀ n fs, Decl.structDecl n fs ∈ decls →
        ∃ sym ∈ (declare_structs_pass1 st decls).base.symbols,
          sym.kind = .Struct ∧ sym.name = n := by
  induction decls with
  | nil => intro st h n fs hg; cases hg
  | cons d rest ih =>
    intro st h n fs hg
    simp only [declare_structs_pass1, List.foldl_cons] at ih ⊢
    rcases List.mem_cons.1 hg with heq | hmem
    · subst heq
      have h2 : (({ st with heap := st.heap ++ [StructType.mk n []] } :
          ResolverState).declare ⟨.Struct, n, .structRef st.heap.length⟩).inner = [] := by
        simp [ResolverState.declare, h]
      obtain ⟨hi, hp, l, hb⟩ := declare_structs_pass1_frame rest _ h2
      simp only [declare_structs_pass1] at hb
      refine ⟨⟨.Struct, n, .structRef st.heap.length⟩, ?_, rfl, rfl⟩
      rw [hb]
      simp [ResolverState.declare, h, Scope.declare]
    · cases d with
      | structDecl n2 fs2 =>
        have h2 : (({ st with heap := st.heap ++ [StructType.mk n2 []] } :
            ResolverState).declare ⟨.Struct, n2, .structRef st.heap.length⟩).inner = [] := by
          simp [ResolverState.declare, h]
        exact ih _ h2 n fs hmem
      | functionDecl n2 ps2 rt2 b2 ex2 => exact ih st h n fs hmem
      | globalDecl n2 t2 i2 m2 => exact ih st h n fs hmem

/-- Filling struct fields touches only the heap, never the scopes. -/
theorem fill_fields_scopes (fields : List Field) :
    ∀ (st : ResolverState) (idx : Nat) (st' : ResolverState),
      fill_fields st idx fields = .ok st' →
      st'.programScope = st.programScope ∧ st'.base = st.base ∧ st'.inner = st.inner := by
  induction fields with
  | nil =>
    intro st idx st' h
    simp only [fill_fields, Except.ok.injEq] at h
    subst h; exact ⟨rfl, rfl, rfl⟩
  | cons f rest ih =>
    intro st idx st' h
    simp only [fill_fields] at h
    cases hr : resolve_type st f.type with
    | error er => simp [hr] at h
    | ok r =>
      rw [hr] at h
      obtain ⟨hp, hb, hi⟩ := ih _ idx _ h
      refine ⟨?_, ?_, ?_⟩ <;>
        simp_all [ResolverState.heap_append_field] <;>
        (split at hp <;> simp_all)

end Tuz

namespace Tuz

/-- The second hoisting pass touches only the heap, never the scopes. -/
theorem declare_structs_pass2_frame (decls : List Decl) :
    ∀ (st st' : ResolverState), declare_structs_pass2 st decls = .ok st' →
      st'.programScope = st.programScope ∧ st'.base = st.base ∧ st'.inner = st.inner := by
  induction decls with
  | nil =>
    intro st st' h
    simp only [declare_structs_pass2, Except.ok.injEq] at h
    subst h; exact ⟨rfl, rfl, rfl⟩
  | cons d rest ih =>
    intro st st' h
    cases d with
    | structDecl n fs =>
      simp only [declare_structs_pass2] at h
      cases hl : st.lookup_first n with
      | none => simp [hl] at h
      | some sym =>
        rw [hl] at h
        obtain ⟨k, nm, ty⟩ := sym
        cases k with
        | Struct =>
          cases ty with
          | structRef idx =>
            simp only at h
            cases hf : fill_fields st idx fs with
            | error er => rw [hf] at h; cases h
            | ok st₂ =>
              rw [hf] at h
              obtain ⟨p1, b1, i1⟩ := fill_fields_scopes fs st idx st₂ hf
              obtain ⟨p2, b2, i2⟩ := ih st₂ st' h
              exact ⟨p2.trans p1, b2.trans b1, i2.trans i1⟩
          | _ => exact ih st st' (by simpa using h)
        | _ => exact ih st st' (by simpa using h)
    | functionDecl n ps rt b ex => exact ih st st' (by simpa [declare_structs_pass2] using h)
    | globalDecl n t i m => exact ih st st' (by simpa [declare_structs_pass2] using h)

/-- `declare_structs` as a whole: pushed-scope stack stays empty,
`program.scope` untouched, bottom scope only appended to. -/
theorem declare_structs_frame (st : ResolverState) (decls : List Decl)
    (st' : ResolverState) (h : declare_structs st decls = .ok st')
    (hin : st.inner = []) :
    st'.inner = [] ∧ st'.programScope = st.programScope ∧
    ∃ l, st'.base.symbols = st.base.symbols ++ l := by
  unfold declare_structs at h
  obtain ⟨hi1, hp1, l, hb1⟩ := declare_structs_pass1_frame decls st hin
  obtain ⟨hp2, hb2, hi2⟩ := declare_structs_pass2_frame decls _ st' h
  exact ⟨hi2.trans hi1, hp2.trans hp1, l, by rw [hb2, hb1]⟩

/-- After `declare_structs`, the bottom scope holds a `Struct` symbol for
every struct declaration. -/
theorem declare_structs_mem (st : ResolverState) (decls : List Decl)
    (st' : ResolverState) (h : declare_structs st decls = .ok st')
    (hin : st.inner = []) :
    ∀ n fs, Decl.structDecl n fs ∈ decls →
      ∃ sym ∈ st'.base.symbols, sym.kind = .Struct ∧ sym.name = n := by
  intro n fs hg
  unfold declare_structs at h
  obtain ⟨hp2, hb2, hi2⟩ := declare_structs_pass2_frame decls _ st' h
  obtain ⟨sym, hmem, hk, hn⟩ := declare_structs_pass1_mem decls st hin n fs hg
  exact ⟨sym, by rw [hb2]; exact hmem, hk, hn⟩

end Tuz

namespace Tuz

/-- C3: for every program whose struct hoisting succeeds, a call expression
naming any function declared anywhere among the top-level declarations
(later ones included) resolves without UnresolvedIdentifier, in every body
context — the hoisted state with arbitrary further nested scopes pushed:
looking the callee up succeeds whatever the scopes above contain, and
visiting the whole call can never raise UnresolvedIdentifier for the
callee's name, because `declare_functions` registered the signature in the
bottom scope before any body is visited. -/
theorem claim_C3_forward_function_reference (p : Program) (st₁ : ResolverState)
    (hhoist : declare_structs (initialState p) p.declarations = .ok st₁)
    (gname : String) (ps : List Param) (rt : Ty) (b : Option Stmt) (ex : Bool)
    (hg : Decl.functionDecl gname ps rt b ex ∈ p.declarations)
    (extra : List Scope) (t : Option Ty) (s : Option Symbol)
    (args : List Expr) (ty : Option Ty) :
    (∃ r, visitExpr
        { declare_functions st₁ p.declarations with
            inner := extra ++ (declare_functions st₁ p.declarations).inner }
        (.var gname t s) = .ok r) ∧
    (∀ er, visitExpr
        { declare_functions st₁ p.declarations with
            inner := extra ++ (declare_functions st₁ p.declarations).inner }
        (.call (.var gname t s) args ty) = .error er →
      er ≠ .unresolvedIdentifier gname) := by
  have hin0 : (initialState p).inner = [] := rfl
  obtain ⟨hi1, hp1, l1, hb1⟩ := declare_structs_frame _ _ _ hhoist hin0
  obtain ⟨sym, hmem, hk, hn⟩ :=
    declare_functions_mem p.declarations st₁ hi1 gname ps rt b ex hg
  set st₂ := declare_functions st₁ p.declarations with hst₂
  set stBody : ResolverState := { st₂ with inner := extra ++ st₂.inner } with hstBody
  have hbase_mem : st₂.base ∈ stBody.chain := by
    simp [ResolverState.chain, hstBody]
  have hlook : ∃ symf, stBody.lookup_first gname = some symf :=
    lookupFirstChain_found _ _ ⟨st₂.base, hbase_mem, lookup_local_ne_nil hmem hn⟩
  obtain ⟨symf, hsymf⟩ := hlook
  have hne : stBody.lookup_first gname ≠ none := by simp [hsymf]
  constructor
  · obtain ⟨k, nm, sty⟩ := symf
    cases k with
    | Variable =>
      exact ⟨(.var gname (some sty) (some ⟨.Variable, nm, sty⟩), stBody),
        by simp [visitExpr, hsymf]⟩
    | Function =>
      exact ⟨(.var gname (some sty) (some ⟨.Function, nm, sty⟩), stBody),
        by simp [visitExpr, hsymf]⟩
    | Struct =>
      exact ⟨(.var gname t (some ⟨.Struct, nm, sty⟩), stBody),
        by simp [visitExpr, hsymf]⟩
    | Field =>
      exact ⟨(.var gname t (some ⟨.Field, nm, sty⟩), stBody),
        by simp [visitExpr, hsymf]⟩
  · intro er hr
    exact visitExpr_no_unres gname stBody (.call (.var gname t s) args ty) hne er hr

end Tuz

namespace Tuz

/-- The forward-reference scenario: `fn f` calls `g`, declared after it. -/
def progFwd : Program :=
  { declarations := [
      .functionDecl "f" [] (.prim .i32)
        (some (.block [.exprStmt (.call (.var "g" none none) [] none)])) false,
      .functionDecl "g" [] (.prim .i32) (some (.block [])) false ],
    scope := Scope.empty }

/-- Witness for C3 on `progFwd`: inside `f`'s body context the callee `g`
resolves even though `g` is declared later. -/
theorem claim_C3_witness :
    (∃ r, visitExpr
        { declare_functions (initialState progFwd) progFwd.declarations with
            inner := [] ++ (declare_functions (initialState progFwd) progFwd.declarations).inner }
        (.var "g" none none) = .ok r) ∧
    (∀ er, visitExpr
        { declare_functions (initialState progFwd) progFwd.declarations with
            inner := [] ++ (declare_functions (initialState progFwd) progFwd.declarations).inner }
        (.call (.var "g" none none) [] none) = .error er →
      er ≠ .unresolvedIdentifier "g") :=
  claim_C3_forward_function_reference progFwd (initialState progFwd) rfl
    "g" [] (.prim .i32) (some (.block [])) false
    (List.mem_cons.2 (Or.inr (List.mem_cons_self _ _))) [] none none [] none

end Tuz

namespace Tuz

/-- Frame relation for phase 2: `program.scope` is untouched and the bottom
stack scope is only ever appended to. -/
def scopeFrame (st st' : ResolverState) : Prop :=
  st'.programScope = st.programScope ∧
  ∃ l, st'.base.symbols = st.base.symbols ++ l

theorem scopeFrame_refl (st : ResolverState) : scopeFrame st st :=
  ⟨rfl, [], by simp⟩

theorem scopeFrame_trans {a b c : ResolverState}
    (h1 : scopeFrame a b) (h2 : scopeFrame b c) : scopeFrame a c := by
  obtain ⟨p1, l1, b1⟩ := h1
  obtain ⟨p2, l2, b2⟩ := h2
  exact ⟨p2.trans p1, l1 ++ l2, by rw [b2, b1, List.append_assoc]⟩

theorem scopeFrame_declare (st : ResolverState) (sym : Symbol) :
    scopeFrame st (st.declare sym) := by
  cases h : st.inner with
  | nil =>
    exact ⟨by simp [ResolverState.declare, h], [sym],
      by simp [ResolverState.declare, h, Scope.declare]⟩
  | cons a l =>
    exact ⟨by simp [ResolverState.declare, h], [],
      by simp [ResolverState.declare, h]⟩

theorem scopeFrame_push (st : ResolverState) : scopeFrame st st.push_scope :=
  ⟨rfl, [], by simp [ResolverState.push_scope]⟩

theorem scopeFrame_pop {st st' : ResolverState} (h : st.pop_scope = .ok st') :
    scopeFrame st st' := by
  unfold ResolverState.pop_scope at h
  cases hi : st.inner with
  | nil => rw [hi] at h; cases h
  | cons a l =>
    rw [hi] at h
    injection h with h2
    subst h2
    exact ⟨rfl, [], by simp⟩

theorem scopeFrame_of_eq {st st' : ResolverState} (h : st' = st) :
    scopeFrame st st' := h ▸ scopeFrame_refl st

end Tuz

namespace Tuz

/-- Phase-2 statement visits keep `program.scope` untouched and only ever
append to the bottom stack scope (they push, pop and declare strictly
above it, or append to it when it is current). -/
theorem visitStmt_frame (st : ResolverState) (s : Stmt) :
    ∀ r, visitStmt st s = .ok r → scopeFrame st r.2 := by
  induction st, s using visitStmt.induct
  case motive_2 st os =>
    exact ∀ r, visitOptStmt st os = .ok r → scopeFrame st r.2
  case motive_3 st ss =>
    exact ∀ r, visitStmtList st ss = .ok r → scopeFrame st r.2
  all_goals intro r hr
  all_goals (try simp_all [visitStmt, visitStmtList, visitOptStmt])
  all_goals (try subst hr)
  case case2 =>
    exact scopeFrame_of_eq (visitExpr_state2 _ _ _ _ ‹visitExpr _ _ = Except.ok _›)
  case case5 =>
    have h := visitExpr_state2 _ _ _ _ ‹visitExpr _ _ = Except.ok _›
    subst h
    exact scopeFrame_declare _ _
  case case9 =>
    rename_i a1 r1 st1 h1 r2 st2 h2
    exact scopeFrame_of_eq
      ((visitExpr_state2 _ _ _ _ h2).trans (visitExpr_state2 _ _ _ _ h1))
  case case12 =>
    rename_i hlist st3 hpop ih
    exact scopeFrame_trans (scopeFrame_push _)
      (scopeFrame_trans ih (scopeFrame_pop hpop))
  case case15 =>
    rename_i st1 hthen el2 st2 helse ih1 ih2
    exact scopeFrame_trans ih1 ih2
  case case17 =>
    rename_i hbody ih
    exact ih
  case case20 =>
    rename_i hempty b1 st1 hbody st2 hpop ih
    exact scopeFrame_trans (scopeFrame_push _)
      (scopeFrame_trans (scopeFrame_declare _ _)
        (scopeFrame_trans ih (scopeFrame_pop hpop)))
  case case22 => exact scopeFrame_refl _
  case case23 => exact scopeFrame_refl _
  case case26 =>
    rename_i hs st1 hrest ih1 ih2
    exact scopeFrame_trans ih1 ih2
  case case27 => exact scopeFrame_refl _
  case case29 =>
    rename_i hs ih
    exact ih
end Tuz

namespace Tuz

/-- The frame relation lifted to nullable statement visits. -/
theorem visitOptStmt_frame (st : ResolverState) (os : Option Stmt) :
    ∀ r, visitOptStmt st os = .ok r → scopeFrame st r.2 := by
  intro r hr
  cases os with
  | none =>
    simp only [visitOptStmt, Except.ok.injEq] at hr
    subst hr; exact scopeFrame_refl _
  | some s =>
    cases hv : visitStmt st s with
    | error er => simp [visitOptStmt, hv] at hr
    | ok p =>
      simp only [visitOptStmt, hv, Except.ok.injEq] at hr
      subst hr
      exact visitStmt_frame st s p hv

/-- The frame relation for the parameter loop of `visit(FunctionDecl&)`. -/
theorem visitParams_frame (params : List Param) :
    ∀ (st : ResolverState) r, visitParams st params = .ok r → scopeFrame st r.2 := by
  induction params with
  | nil =>
    intro st r hr
    simp only [visitParams, Except.ok.injEq] at hr
    subst hr; exact scopeFrame_refl _
  | cons p rest ih =>
    intro st r hr
    simp only [visitParams] at hr
    cases ht : resolve_type st p.type with
    | error er => simp [ht] at hr
    | ok pty =>
      simp only [ht] at hr
      cases hv : visitParams (st.declare ⟨.Variable, p.name, pty⟩) rest with
      | error er => simp [hv] at hr
      | ok q =>
        simp only [hv] at hr
        simp only [Except.ok.injEq] at hr
        subst hr
        exact scopeFrame_trans (scopeFrame_declare _ _) (ih _ q hv)

/-- The frame relation for one phase-2 declaration visit. -/
theorem visitDecl_frame (st : ResolverState) (d : Decl) :
    ∀ r, visitDecl st d = .ok r → scopeFrame st r.2 := by
  intro r hr
  cases d with
  | functionDecl n ps rt b ex =>
    simp only [visitDecl] at hr
    cases hp : visitParams st.push_scope ps with
    | error er => simp [hp] at hr
    | ok q =>
      simp only [hp] at hr
      cases ht : resolve_type q.2 rt with
      | error er => simp [ht] at hr
      | ok rt2 =>
        simp only [ht] at hr
        cases hb : visitOptStmt q.2 b with
        | error er => simp [hb] at hr
        | ok w =>
          simp only [hb] at hr
          cases hpop : w.2.pop_scope with
          | error er => simp [hpop] at hr
          | ok st4 =>
            simp only [hpop] at hr
            simp only [Except.ok.injEq] at hr
            subst hr
            exact scopeFrame_trans (scopeFrame_push _)
              (scopeFrame_trans (visitParams_frame ps _ _ hp)
                (scopeFrame_trans (visitOptStmt_frame _ _ _ hb)
                  (scopeFrame_pop hpop)))
  | structDecl n fs =>
    simp only [visitDecl] at hr
    cases hf : resolveFieldTypes st fs with
    | error er => simp [hf] at hr
    | ok fs2 =>
      simp only [hf] at hr
      simp only [Except.ok.injEq] at hr
      subst hr
      exact scopeFrame_refl _
  | globalDecl n t i m =>
    simp only [visitDecl] at hr
    cases ht : resolve_type st t with
    | error er => simp [ht] at hr
    | ok t2 =>
      simp only [ht] at hr
      simp only [Except.ok.injEq] at hr
      subst hr
      exact scopeFrame_refl _

/-- The frame relation for the whole phase-2 pass over the program. -/
theorem visitDeclList_frame (decls : List Decl) :
    ∀ (st : ResolverState) r, visitDeclList st decls = .ok r → scopeFrame st r.2 := by
  induction decls with
  | nil =>
    intro st r hr
    simp only [visitDeclList, Except.ok.injEq] at hr
    subst hr; exact scopeFrame_refl _
  | cons d rest ih =>
    intro st r hr
    simp only [visitDeclList] at hr
    cases hd : visitDecl st d with
    | error er => simp [hd] at hr
    | ok p =>
      simp only [hd] at hr
      cases hrest : visitDeclList p.2 rest with
      | error er => simp [hrest] at hr
      | ok q =>
        simp only [hrest] at hr
        simp only [Except.ok.injEq] at hr
        subst hr
        exact scopeFrame_trans (visitDecl_frame st d p hd) (ih _ q hrest)

end Tuz

namespace Tuz

/-- A minimal program with one struct and one function declaration. -/
def progSandF : Program :=
  { declarations := [
      .structDecl "S" [],
      .functionDecl "f" [] (.prim .void) (some (.block [])) false ],
    scope := Scope.empty }

/-- C1 (amended): after a successful resolution pass, the scope populated
with the hoisted signatures is the bottom scope of the resolver's internal
stack (pushed at construction, child of `program.scope`): it holds a
`Struct` symbol for every struct declaration and a `Function` symbol for
every function declaration.  `program.scope` itself — the member handed to
CodeGen — is returned exactly as the parser produced it (empty), with
nothing ever declared into it. -/
theorem claim_C1_hoisted_symbols_in_base_scope (p : Program) (p' : Program) (st' : ResolverState)
    (h : resolveProgram p = .ok (p', st')) :
    (∀ n fs, Decl.structDecl n fs ∈ p.declarations →
      ∃ sym ∈ st'.base.symbols, sym.kind = .Struct ∧ sym.name = n) ∧
    (∀ n ps rt b ex, Decl.functionDecl n ps rt b ex ∈ p.declarations →
      ∃ sym ∈ st'.base.symbols, sym.kind = .Function ∧ sym.name = n) ∧
    p'.scope = p.scope := by
  unfold resolveProgram at h
  cases hh : declare_structs (initialState p) p.declarations with
  | error er => simp [hh] at h
  | ok st₁ =>
    simp only [hh] at h
    cases hv : visitDeclList (declare_functions st₁ p.declarations) p.declarations with
    | error er => simp [hv] at h
    | ok q =>
      simp only [hv, Except.ok.injEq] at h
      obtain ⟨hp', hst'⟩ := Prod.mk.injEq .. ▸ h
      have hin0 : (initialState p).inner = [] := rfl
      obtain ⟨hi1, hpr1, l1, hb1⟩ := declare_structs_frame _ _ _ hh hin0
      obtain ⟨hi2, hpr2, l2, hb2⟩ := declare_functions_frame p.declarations st₁ hi1
      have hfr3 : scopeFrame (declare_functions st₁ p.declarations) q.2 :=
        visitDeclList_frame p.declarations _ q hv
      obtain ⟨hpr3, l3, hb3⟩ := hfr3
      subst hst'
      refine ⟨?_, ?_, ?_⟩
      · intro n fs hmem
        obtain ⟨sym, hsm, hk, hn⟩ := declare_structs_mem _ _ _ hh hin0 n fs hmem
        refine ⟨sym, ?_, hk, hn⟩
        rw [hb3, hb2]
        exact List.mem_append_left _ (List.mem_append_left _ hsm)
      · intro n ps rt b ex hmem
        obtain ⟨sym, hsm, hk, hn⟩ :=
          declare_functions_mem p.declarations st₁ hi1 n ps rt b ex hmem
        refine ⟨sym, ?_, hk, hn⟩
        rw [hb3]
        exact List.mem_append_left _ hsm
      · rw [← hp']
        simp only [hpr3, hpr2, hpr1]
        rfl

end Tuz

namespace Tuz

/-- The resolver state after a successful pass over `progSandF`: the
canonical empty struct `S` in the heap, and the bottom stack scope holding
the hoisted `Struct` and `Function` symbols. -/
def stateSandF : ResolverState :=
  { heap := [⟨"S", []⟩],
    programScope := Scope.empty,
    base := ⟨[⟨.Struct, "S", .structRef 0⟩,
              ⟨.Function, "f", .functionSig [] (.prim .void)⟩]⟩,
    inner := [] }

/-- C1 counterexample: resolution of `progSandF` (which has the struct
declaration `S`) succeeds, yet the `Program`'s own scope handed onward
contains no symbol at all — in particular no `Struct` symbol for `S`:
hoisting populates the resolver's bottom stack scope, never
`program.scope`. -/
theorem claim_C1_counterexample :
    Decl.structDecl "S" [] ∈ progSandF.declarations ∧
    (resolveProgram progSandF).map (fun pr => pr.1.scope.symbols.length) = .ok 0 :=
  ⟨List.mem_cons_self _ _, rfl⟩

/-- Witness for the amended C1 on `progSandF`: the bottom stack scope of
the final state holds the `Struct` symbol for `S` and the `Function`
symbol for `f`, and the program's scope member comes back unchanged. -/
theorem claim_C1_witness :
    (∀ n fs, Decl.structDecl n fs ∈ progSandF.declarations →
      ∃ sym ∈ stateSandF.base.symbols, sym.kind = .Struct ∧ sym.name = n) ∧
    (∀ n ps rt b ex, Decl.functionDecl n ps rt b ex ∈ progSandF.declarations →
      ∃ sym ∈ stateSandF.base.symbols, sym.kind = .Function ∧ sym.name = n) ∧
    progSandF.scope = progSandF.scope :=
  claim_C1_hoisted_symbols_in_base_scope progSandF progSandF stateSandF rfl

end Tuz

namespace Tuz

/-- The Struct symbols the first hoisting pass declares for `decls`, with
heap indices starting at `offset`. -/
def structSyms (offset : Nat) : List Decl → List Symbol
  | [] => []
  | .structDecl n _ :: rest => ⟨.Struct, n, .structRef offset⟩ :: structSyms (offset + 1) rest
  | _ :: rest => structSyms offset rest

/-- What the first hoisting pass computes, exactly: the canonical empty
shells appended to the heap in declaration order, and the corresponding
`Struct` symbols appended to the bottom scope, indices following heap
positions. -/
theorem declare_structs_pass1_explicit (decls : List Decl) :
    ∀ st : ResolverState, st.inner = [] →
      declare_structs_pass1 st decls =
        { heap := st.heap ++ (structsOf decls).map (fun nf => ⟨nf.1, []⟩),
          programScope := st.programScope,
          base := ⟨st.base.symbols ++ structSyms st.heap.length decls⟩,
          inner := [] } := by
  induction decls with
  | nil =>
    intro st h
    simp [declare_structs_pass1, structsOf, structSyms, ← h]
  | cons d rest ih =>
    intro st h
    cases d with
    | structDecl n fs =>
      simp only [declare_structs_pass1, List.foldl_cons] at ih ⊢
      have step :
          (({ st with heap := st.heap ++ [StructType.mk n []] } :
              ResolverState).declare ⟨.Struct, n, .structRef st.heap.length⟩) =
          { heap := st.heap ++ [StructType.mk n []],
            programScope := st.programScope,
            base := ⟨st.base.symbols ++ [⟨.Struct, n, .structRef st.heap.length⟩]⟩,
            inner := [] } := by
        simp [ResolverState.declare, h, Scope.declare]
      rw [step]      -- hmm: goal's foldl start is the declare-term; rewrite it
      rw [ih _ rfl]
      simp [structsOf, structSyms, structNames]
    | functionDecl n ps rt b ex =>
      simp only [declare_structs_pass1, List.foldl_cons] at ih ⊢
      rw [ih st h]
      simp [structsOf, structSyms]
    | globalDecl n t i m =>
      simp only [declare_structs_pass1, List.foldl_cons] at ih ⊢
      rw [ih st h]
      simp [structsOf, structSyms]
end Tuz

namespace Tuz

/-- Every symbol the first pass declares is named after a struct
declaration. -/
theorem structSyms_names (decls : List Decl) :
    ∀ offset sym, sym ∈ structSyms offset decls → sym.name ∈ structNames decls := by
  induction decls with
  | nil => intro o sym h; cases h
  | cons d rest ih =>
    intro o sym h
    cases d with
    | structDecl n fs =>
      simp only [structSyms] at h
      rcases List.mem_cons.1 h with rfl | h2
      · simp [structNames]
      · simp only [structNames, List.filterMap_cons]
        exact List.mem_cons.2 (Or.inr (by
          have := ih (o + 1) sym h2
          simpa [structNames] using this))
    | functionDecl n ps rt b ex =>
      simp only [structSyms] at h
      simpa [structNames] using ih o sym h
    | globalDecl n t i m =>
      simp only [structSyms] at h
      simpa [structNames] using ih o sym h

/-- A name that is no struct declaration's name matches none of the
hoisted struct symbols. -/
theorem structSyms_filter_not_mem (decls : List Decl) (n : String) :
    ∀ offset, n ∉ structNames decls →
      (structSyms offset decls).filter (fun s => s.name == n) = [] := by
  intro offset hn
  rw [List.filter_eq_nil_iff]
  intro sym hsym
  simp only [beq_iff_eq]
  intro heq
  exact hn (heq ▸ structSyms_names decls offset sym hsym)

/-- With pairwise-distinct struct names, filtering the hoisted symbols by
a declared name yields exactly the one symbol whose heap index is the
name's position among the struct declarations. -/
theorem structSyms_filter (decls : List Decl) (n : String) :
    ∀ offset, (structNames decls).Nodup → n ∈ structNames decls →
      (structSyms offset decls).filter (fun s => s.name == n) =
        [⟨.Struct, n, .structRef (offset + (structNames decls).indexOf n)⟩] := by
  induction decls with
  | nil => intro o hd hn; cases hn
  | cons d rest ih =>
    intro o hd hn
    cases d with
    | structDecl m fs =>
      have hnames : structNames (Decl.structDecl m fs :: rest) = m :: structNames rest := by
        simp [structNames]
      rw [hnames] at hn hd ⊢
      by_cases hmn : m = n
      · subst hmn
        have hnotin : m ∉ structNames rest := (List.nodup_cons.1 hd).1
        simp only [structSyms, List.filter_cons]
        simp only [beq_self_eq_true, if_pos]
        rw [structSyms_filter_not_mem rest m (o + 1) hnotin]
        simp [List.indexOf_cons_self]
      · have hn2 : n ∈ structNames rest := by
          rcases List.mem_cons.1 hn with h | h
          · exact absurd h.symm hmn
          · exact h
        simp only [structSyms, List.filter_cons]
        rw [if_neg (by simp [hmn])]
        rw [ih (o + 1) (List.nodup_cons.1 hd).2 hn2]
        have hidx : (m :: structNames rest).indexOf n = (structNames rest).indexOf n + 1 :=
          List.indexOf_cons_ne _ hmn
        rw [hidx]
        simp [Nat.add_comm, Nat.add_assoc, Nat.add_left_comm]
    | functionDecl m ps rt b ex =>
      have hnames : structNames (Decl.functionDecl m ps rt b ex :: rest) = structNames rest := by
        simp [structNames]
      rw [hnames] at hn hd ⊢
      simp only [structSyms]
      exact ih o hd hn
    | globalDecl m t i mu =>
      have hnames : structNames (Decl.globalDecl m t i mu :: rest) = structNames rest := by
        simp [structNames]
      rw [hnames] at hn hd ⊢
      simp only [structSyms]
      exact ih o hd hn

end Tuz

namespace Tuz

/-- `lookup_first` only reads the three scope components, never the heap. -/
theorem lookup_first_scopes_eq (st st' : ResolverState)
    (hb : st'.base = st.base) (hi : st'.inner = st.inner)
    (hp : st'.programScope = st.programScope) (n : String) :
    st'.lookup_first n = st.lookup_first n := by
  simp [ResolverState.lookup_first, ResolverState.chain, hb, hi, hp]

/-- After the first pass on a fresh resolver, looking up any declared
struct name finds its canonical `Struct` symbol. -/
theorem hoist_lookup (p : Program) (hd : (structNames p.declarations).Nodup) :
    ∀ n ∈ structNames p.declarations,
      (declare_structs_pass1 (initialState p) p.declarations).lookup_first n =
        some ⟨.Struct, n, .structRef ((structNames p.declarations).indexOf n)⟩ := by
  intro n hn
  rw [declare_structs_pass1_explicit _ _ rfl]
  simp only [ResolverState.lookup_first, ResolverState.chain, List.nil_append,
    lookupFirstChain, lookupChain, Scope.lookup_local, initialState, Scope.empty]
  simp only [List.length_nil]
  rw [structSyms_filter p.declarations n 0 hd hn]
  simp

/-- In any state satisfying the hoisted-lookup property, one application
of `resolve_type` to a declared field type computes `hoistFieldResolve`:
bare struct names become canonical references, and everything else —
pointers included — is returned unchanged. -/
theorem resolve_field_hoist (declsFull : List Decl) (st : ResolverState)
    (hlook : ∀ n ∈ structNames declsFull, st.lookup_first n =
      some ⟨.Struct, n, .structRef ((structNames declsFull).indexOf n)⟩)
    (t : Ty) (ht : ∀ m, t = .typeName m → m ∈ structNames declsFull) :
    resolve_type st t = .ok (hoistFieldResolve declsFull t) := by
  cases t with
  | typeName m =>
    have hm := ht m rfl
    simp [resolve_type, hlook m hm, hoistFieldResolve, hm]
  | prim q => rfl
  | pointer q => rfl
  | structRef i => rfl
  | functionSig a r => rfl

/-- Optional indexing at the junction of an append. -/
theorem getElem?_append_cons {α : Type} (l : List α) (a : α) (t : List α) :
    (l ++ a :: t)[l.length]? = some a := by
  induction l with
  | nil => simp
  | cons x xs ih => simpa using ih

/-- Indexing at the junction of an append. -/
theorem getElem_append_cons {α : Type} (l : List α) (a : α) (t : List α)
    (h : l.length < (l ++ a :: t).length) :
    (l ++ a :: t)[l.length] = a := by
  induction l with
  | nil => simp
  | cons x xs ih => simpa using ih (by simp)

/-- Updating at the junction of an append. -/
theorem set_append_cons {α : Type} (l : List α) (a b : α) (t : List α) :
    (l ++ a :: t).set l.length b = l ++ b :: t := by
  induction l with
  | nil => rfl
  | cons x xs ih => simp [List.set, ih]

/-- The field loop of pass 2 appends exactly the once-resolved field
types, in declaration order, to the canonical struct object at the given
heap slot, touching nothing else. -/
theorem fill_fields_result (declsFull : List Decl) (fs : List Field) :
    ∀ (st : ResolverState) (done : List StructType) (n : String)
      (part : List (String × Ty)) (tail : List StructType),
      (∀ m ∈ structNames declsFull, st.lookup_first m =
        some ⟨.Struct, m, .structRef ((structNames declsFull).indexOf m)⟩) →
      (∀ f ∈ fs, ∀ m, f.type = .typeName m → m ∈ structNames declsFull) →
      st.heap = done ++ ⟨n, part⟩ :: tail →
      ∃ st₂, fill_fields st done.length fs = .ok st₂ ∧
        st₂.heap = done ++
          ⟨n, part ++ fs.map (fun f => (f.name, hoistFieldResolve declsFull f.type))⟩ :: tail ∧
        st₂.base = st.base ∧ st₂.inner = st.inner ∧
        st₂.programScope = st.programScope := by
  induction fs with
  | nil =>
    intro st done n part tail hlook hfs hheap
    exact ⟨st, rfl, by simpa using hheap, rfl, rfl, rfl⟩
  | cons f fs2 ih =>
    intro st done n part tail hlook hfs hheap
    have hres := resolve_field_hoist declsFull st hlook f.type
      (hfs f (List.mem_cons_self _ _))
    simp only [fill_fields, hres]
    have happ : st.heap_append_field done.length f.name
        (hoistFieldResolve declsFull f.type) =
        { st with heap :=
            done ++ ⟨n, part ++ [(f.name, hoistFieldResolve declsFull f.type)]⟩ :: tail } := by
      simp [ResolverState.heap_append_field, hheap, getElem?_append_cons,
        set_append_cons, getElem_append_cons]
    rw [happ]
    obtain ⟨st₂, h1, h2, h3, h4, h5⟩ := ih
      { st with heap :=
          done ++ ⟨n, part ++ [(f.name, hoistFieldResolve declsFull f.type)]⟩ :: tail }
      done n (part ++ [(f.name, hoistFieldResolve declsFull f.type)]) tail
      (fun m hm => hlook m hm) (fun g hg => hfs g (List.mem_cons.2 (Or.inr hg))) rfl
    exact ⟨st₂, h1, by simpa [List.append_assoc] using h2, h3, h4, h5⟩

end Tuz

namespace Tuz

/-- Pass 2 over a suffix of the declarations: each struct's shell, sitting
at its declaration position in the heap, is filled with its once-resolved
fields in order; scopes are untouched and no error is raised. -/
theorem declare_structs_pass2_result (declsFull : List Decl) :
    ∀ (rest : List Decl) (st : ResolverState) (done : List StructType),
      (∀ m ∈ structNames declsFull, st.lookup_first m =
        some ⟨.Struct, m, .structRef ((structNames declsFull).indexOf m)⟩) →
      (structNames rest).Nodup →
      (∀ m ∈ structNames rest, (structNames declsFull).indexOf m =
        done.length + (structNames rest).indexOf m) →
      (∀ n fs, Decl.structDecl n fs ∈ rest → ∀ f ∈ fs, ∀ m,
        f.type = .typeName m → m ∈ structNames declsFull) →
      (∀ m ∈ structNames rest, m ∈ structNames declsFull) →
      st.heap = done ++ (structsOf rest).map (fun nf => ⟨nf.1, []⟩) →
      ∃ st', declare_structs_pass2 st rest = .ok st' ∧
        st'.heap = done ++ (structsOf rest).map
          (fun nf => ⟨nf.1, nf.2.map
            (fun f => (f.name, hoistFieldResolve declsFull f.type))⟩) ∧
        st'.base = st.base ∧ st'.inner = st.inner ∧
        st'.programScope = st.programScope := by
  intro rest
  induction rest with
  | nil =>
    intro st done hlook hnodup hidx hfs hsub hheap
    exact ⟨st, rfl, by simpa using hheap, rfl, rfl, rfl⟩
  | cons d rest2 ih =>
    intro st done hlook hnodup hidx hfs hsub hheap
    cases d with
    | structDecl n fs =>
      have hnames : structNames (Decl.structDecl n fs :: rest2) = n :: structNames rest2 := by
        simp [structNames]
      rw [hnames] at hnodup hidx hsub
      have hnmem : n ∈ structNames declsFull := hsub n (List.mem_cons_self _ _)
      have hidxn : (structNames declsFull).indexOf n = done.length := by
        have := hidx n (List.mem_cons_self _ _)
        simpa [List.indexOf_cons_self] using this
      have hlookn := hlook n hnmem
      rw [hidxn] at hlookn
      have hsh : structsOf (Decl.structDecl n fs :: rest2) = (n, fs) :: structsOf rest2 := by
        simp [structsOf]
      rw [hsh] at hheap
      simp only [List.map_cons] at hheap
      obtain ⟨st₂, hfill, hheap₂, hb₂, hi₂, hp₂⟩ :=
        fill_fields_result declsFull fs st done n [] ((structsOf rest2).map (fun nf => ⟨nf.1, []⟩))
          hlook (fun f hf => hfs n fs (List.mem_cons_self _ _) f hf) hheap
      have hlook₂ : ∀ m ∈ structNames declsFull, st₂.lookup_first m =
          some ⟨.Struct, m, .structRef ((structNames declsFull).indexOf m)⟩ := by
        intro m hm
        rw [lookup_first_scopes_eq st st₂ hb₂ hi₂ hp₂ m]
        exact hlook m hm
      have hnodup2 : (structNames rest2).Nodup := (List.nodup_cons.1 hnodup).2
      have hnotin : n ∉ structNames rest2 := (List.nodup_cons.1 hnodup).1
      have hidx2 : ∀ m ∈ structNames rest2, (structNames declsFull).indexOf m =
          (done ++ [(⟨n, fs.map (fun f => (f.name, hoistFieldResolve declsFull f.type))⟩ :
            StructType)]).length + (structNames rest2).indexOf m := by
        intro m hm
        have hmn : n ≠ m := fun h => hnotin (h ▸ hm)
        have := hidx m (List.mem_cons.2 (Or.inr hm))
        rw [List.indexOf_cons_ne _ hmn] at this
        simpa [Nat.add_comm, Nat.add_assoc, Nat.add_left_comm] using this
      have hheap2' : st₂.heap =
          (done ++ [(⟨n, fs.map (fun f => (f.name, hoistFieldResolve declsFull f.type))⟩ :
            StructType)]) ++ (structsOf rest2).map (fun nf => ⟨nf.1, []⟩) := by
        rw [hheap₂]; simp
      obtain ⟨st', hrec, hheap', hb', hi', hp'⟩ := ih st₂
        (done ++ [⟨n, fs.map (fun f => (f.name, hoistFieldResolve declsFull f.type))⟩])
        hlook₂ hnodup2 hidx2
        (fun n2 fs2 hmem => hfs n2 fs2 (List.mem_cons.2 (Or.inr hmem)))
        (fun m hm => hsub m (List.mem_cons.2 (Or.inr hm)))
        hheap2'
      refine ⟨st', ?_, ?_, hb'.trans hb₂, hi'.trans hi₂, hp'.trans hp₂⟩
      · simp only [declare_structs_pass2, hlookn, hfill]
        exact hrec
      · rw [hheap', hsh]
        simp
    | functionDecl n ps rt b ex =>
      have hnames : structNames (Decl.functionDecl n ps rt b ex :: rest2) = structNames rest2 := by
        simp [structNames]
      have hsh : structsOf (Decl.functionDecl n ps rt b ex :: rest2) = structsOf rest2 := by
        simp [structsOf]
      rw [hnames] at hnodup hidx hsub
      rw [hsh] at hheap
      obtain ⟨st', hrec, hh, hb, hi2, hp⟩ := ih st done hlook hnodup hidx
        (fun n2 fs2 hmem => hfs n2 fs2 (List.mem_cons.2 (Or.inr hmem))) hsub hheap
      exact ⟨st', by simpa [declare_structs_pass2] using hrec, by rw [hh, hsh], hb, hi2, hp⟩
    | globalDecl n t i m =>
      have hnames : structNames (Decl.globalDecl n t i m :: rest2) = structNames rest2 := by
        simp [structNames]
      have hsh : structsOf (Decl.globalDecl n t i m :: rest2) = structsOf rest2 := by
        simp [structsOf]
      rw [hnames] at hnodup hidx hsub
      rw [hsh] at hheap
      obtain ⟨st', hrec, hh, hb, hi2, hp⟩ := ih st done hlook hnodup hidx
        (fun n2 fs2 hmem => hfs n2 fs2 (List.mem_cons.2 (Or.inr hmem))) hsub hheap
      exact ⟨st', by simpa [declare_structs_pass2] using hrec, by rw [hh, hsh], hb, hi2, hp⟩

end Tuz

namespace Tuz

/-- C2 (amended): for every program with pairwise-distinct struct names
whose struct-named field types name declared structs (pointer fields may
point at anything, mutual and self reference included, in any declaration
order), `declare_structs` succeeds — termination is intrinsic, the
functions being total — and every struct's canonical object carries its
fields in declaration order, each field type being the result of one
`resolve_type` application: a field whose declared type is directly a
struct name is resolved to the referenced struct's canonical type, while a
pointer field keeps its `UnresolvedName` pointee unresolved (the pointee
is not re-resolved), which is the one correction to the claim. -/
theorem claim_C2_struct_hoisting (p : Program)
    (hd : (structNames p.declarations).Nodup)
    (hfs : ∀ n fs, Decl.structDecl n fs ∈ p.declarations → ∀ f ∈ fs, ∀ m,
      f.type = .typeName m → m ∈ structNames p.declarations) :
    ∃ st', declare_structs (initialState p) p.declarations = .ok st' ∧
      st'.heap = (structsOf p.declarations).map
        (fun nf => ⟨nf.1, nf.2.map
          (fun f => (f.name, hoistFieldResolve p.declarations f.type))⟩) := by
  unfold declare_structs
  have hlook := hoist_lookup p hd
  have hheap1 : (declare_structs_pass1 (initialState p) p.declarations).heap =
      [] ++ (structsOf p.declarations).map (fun nf => ⟨nf.1, []⟩) := by
    rw [declare_structs_pass1_explicit _ _ rfl]
    simp [initialState]
  obtain ⟨st', hrec, hheap', _, _, _⟩ :=
    declare_structs_pass2_result p.declarations p.declarations
      (declare_structs_pass1 (initialState p) p.declarations) []
      hlook hd (fun m hm => by simp) hfs (fun m hm => hm) hheap1
  exact ⟨st', hrec, by simpa using hheap'⟩

/-- The mutual-pointer scenario from the spec. -/
def progAB : Program :=
  { declarations := [
      .structDecl "A" [⟨"next", .pointer (.typeName "B")⟩],
      .structDecl "B" [⟨"next", .pointer (.typeName "A")⟩] ],
    scope := Scope.empty }

/-- C2 counterexample: on the spec's own scenario — `struct A { next: *B }`
with `struct B { next: *A }` — hoisting succeeds, but `A.next` keeps the
type pointer-to-`UnresolvedName "B"`, which is not pointer-to-canonical-`B`
(`structRef 1`): pointer pointees are not resolved to the referenced
struct's canonical type. -/
theorem claim_C2_counterexample :
    (∃ st', declare_structs (initialState progAB) progAB.declarations = .ok st' ∧
      st'.heap = [⟨"A", [("next", .pointer (.typeName "B"))]⟩,
                  ⟨"B", [("next", .pointer (.typeName "A"))]⟩]) ∧
    Ty.pointer (.typeName "B") ≠ Ty.pointer (.structRef 1) := by
  constructor
  · exact ⟨_, rfl, rfl⟩
  · simp

/-- Witness for the amended C2 on the mutual-pointer scenario `progAB`. -/
theorem claim_C2_witness :
    ∃ st', declare_structs (initialState progAB) progAB.declarations = .ok st' ∧
      st'.heap = (structsOf progAB.declarations).map
        (fun nf => ⟨nf.1, nf.2.map
          (fun f => (f.name, hoistFieldResolve progAB.declarations f.type))⟩) :=
  claim_C2_struct_hoisting progAB (by simp [progAB, structNames]) (by
    intro n fs hmem f hf m hm
    simp only [progAB] at hmem
    rcases List.mem_cons.1 hmem with h | h2
    · cases h
      simp only [List.mem_singleton] at hf
      subst hf
      simp at hm
    · rcases List.mem_cons.1 h2 with h | h3
      · cases h
        simp only [List.mem_singleton] at hf
        subst hf
        simp at hm
      · cases h3)

end Tuz
